import Mathlib

/-!
# Verification of the Saviynt Log Analyzer ingestion backend

A shallow embedding of `src/backend.py` (the resumable ingestion-and-
aggregation pipeline): per-line parsing and classification, the batched
write path (`update_summary_tables`, `process_log_file`), the job loop
(`process_job`), the S3 path enumeration (`generate_s3_paths`) and the
pause/resume control surface (`pause_job`, `resume_job`).

Modelling conventions:
* `json.loads` on one line is modelled abstractly: a line is
  `Option LogEntry`, `none` standing for a line that is not valid JSON
  (`json.JSONDecodeError`), `some e` for a successfully decoded object
  whose relevant keys are the optional fields of `LogEntry`.
* SQLite tables are Lean lists; `INSERT` is append, `INSERT OR IGNORE`
  is append-if-absent, and the `ON CONFLICT ... DO UPDATE SET
  count = count + ?` upsert is an association-list bump.
* Each `conn.commit()` produces one durable snapshot; functions on the
  write path return the list of snapshots in commit order, so that a
  crash after `k` commits leaves exactly the `k`-th snapshot durable.
* Python string truthiness (`if class_name and level:`) is `≠ ""`.
-/

namespace LogAnalyzer

set_option maxRecDepth 80000

/-- A decoded JSON log line, keeping the four keys the backend reads
(`logtime`, `level`, `class`, `log`).  A missing key is `none`. -/
structure LogEntry where
  logtime : Option String
  level : Option String
  cls : Option String
  log : Option String
deriving DecidableEq, Repr

/-- One raw input line: `none` models a line rejected by `json.loads`. -/
abbrev Line := Option LogEntry

/-! ## String helpers (Python `'.' in s` and `s.split('.', 1)`) -/

/-- Break a character list at the first `'.'`: returns the part before
and the part after, or `none` when no `'.'` occurs. -/
def breakAtDot : List Char → Option (List Char × List Char)
  | [] => none
  | c :: cs =>
    if c = '.' then some ([], cs)
    else match breakAtDot cs with
      | some (a, b) => some (c :: a, b)
      | none => none

/-- Python `'.' in s`. -/
def hasDot (s : String) : Bool := (breakAtDot s.toList).isSome

/-- The part of `s` before the first `'.'` (Python `s.split('.', 1)[0]`). -/
def beforeDot (s : String) : String :=
  match breakAtDot s.toList with
  | some (a, _) => String.mk a
  | none => s

/-- The part of `s` after the first `'.'` (Python `s.split('.', 1)[1]`). -/
def afterDot (s : String) : String :=
  match breakAtDot s.toList with
  | some (_, b) => String.mk b
  | none => s

/-! ## Level and class/service extraction (backend.py lines 292-305) -/

/-- `level = log_entry.get('level', 'UNKNOWN'); if level not in
valid_levels: level = 'UNKNOWN'`. -/
def extractLevel (validLevels : List String) (e : LogEntry) : String :=
  let level := e.level.getD "UNKNOWN"
  if level ∈ validLevels then level else "UNKNOWN"

/-- `if class_field and '.' in class_field: service, class_name =
class_field.split('.', 1) else: class_name = service = 'Unknown';
missing_class_count += 1`.  Returns `(class_name, service, missing)`. -/
def extractClassService (e : LogEntry) : String × String × Bool :=
  match e.cls with
  | some c =>
    if c ≠ "" ∧ hasDot c then (afterDot c, beforeDot c, false)
    else ("Unknown", "Unknown", true)
  | none => ("Unknown", "Unknown", true)

/-! ## Timestamp parsing

The backend validates timestamps with `datetime.strptime` against three
formats in order: `%Y-%m-%d %H:%M:%S,%f`, `%Y-%m-%d %H:%M:%S`,
`%d/%b/%Y:%H:%M:%S %z` (backend.py lines 89-97 and 308-318).  The
parsers below mirror CPython's `_strptime` field regexes (`%Y` exactly
four digits, `%m`/`%d`/`%H`/`%M`/`%S` one or two digits, `%f` one to
six digits, `%b` a case-insensitive three-letter month abbreviation,
`%z` `±HH[:]MM` with an optional seconds part or a literal `Z`) and the
`datetime` constructor's range checks. -/

structure DateTime where
  year : Nat
  month : Nat
  day : Nat
  hour : Nat
  minute : Nat
  second : Nat
  micro : Nat
  tzMinutes : Option Int
deriving DecidableEq, Repr

def digitsToNat (ds : List Char) : Nat :=
  ds.foldl (fun n c => n * 10 + (c.toNat - '0'.toNat)) 0

/-- Take up to `n` leading digits. -/
def grabDigits : Nat → List Char → List Char × List Char
  | 0, cs => ([], cs)
  | _ + 1, [] => ([], [])
  | n + 1, c :: cs =>
    if c.isDigit then
      let (ds, rest) := grabDigits n cs
      (c :: ds, rest)
    else ([], c :: cs)

/-- Read between `mn` and `mx` digits (greedy), as a number. -/
def readNum (mn mx : Nat) (cs : List Char) : Option (Nat × List Char) :=
  let (ds, rest) := grabDigits mx cs
  if mn ≤ ds.length then some (digitsToNat ds, rest) else none

def expectChar (c : Char) : List Char → Option (List Char)
  | [] => none
  | c' :: cs => if c' = c then some cs else none

def isLeapYear (y : Nat) : Bool :=
  y % 4 = 0 ∧ (y % 100 ≠ 0 ∨ y % 400 = 0)

def daysInMonth (y m : Nat) : Nat :=
  if m = 2 then (if isLeapYear y then 29 else 28)
  else if m = 4 ∨ m = 6 ∨ m = 9 ∨ m = 11 then 30
  else 31

/-- `datetime(...)` constructor validity: year 1-9999, month 1-12, day
in the month's range, hour < 24, minute < 60, second < 60. -/
def validDate (y m d hh mm ss : Nat) : Bool :=
  1 ≤ y ∧ y ≤ 9999 ∧ 1 ≤ m ∧ m ≤ 12 ∧ 1 ≤ d ∧ d ≤ daysInMonth y m ∧
    hh < 24 ∧ mm < 60 ∧ ss < 60

/-- Shared head of the two local formats: `%Y-%m-%d %H:%M:%S`. -/
def parseYmdHms (cs : List Char) : Option (DateTime × List Char) := do
  let (y, cs) ← readNum 4 4 cs
  let cs ← expectChar '-' cs
  let (m, cs) ← readNum 1 2 cs
  let cs ← expectChar '-' cs
  let (d, cs) ← readNum 1 2 cs
  let cs ← expectChar ' ' cs
  let (hh, cs) ← readNum 1 2 cs
  let cs ← expectChar ':' cs
  let (mm, cs) ← readNum 1 2 cs
  let cs ← expectChar ':' cs
  let (ss, cs) ← readNum 1 2 cs
  if validDate y m d hh mm ss then
    some (⟨y, m, d, hh, mm, ss, 0, none⟩, cs)
  else none

/-- `%Y-%m-%d %H:%M:%S,%f` (must consume the whole string). -/
def parseTsMillis (s : String) : Option DateTime := do
  let (dt, cs) ← parseYmdHms s.toList
  let cs ← expectChar ',' cs
  let (f, cs) ← readNum 1 6 cs
  match cs with
  | [] => some { dt with micro := f }
  | _ => none

/-- `%Y-%m-%d %H:%M:%S` (must consume the whole string). -/
def parseTsSeconds (s : String) : Option DateTime := do
  let (dt, cs) ← parseYmdHms s.toList
  match cs with
  | [] => some dt
  | _ => none

def monthAbbrevs : List (String × Nat) :=
  [("jan", 1), ("feb", 2), ("mar", 3), ("apr", 4), ("may", 5), ("jun", 6),
   ("jul", 7), ("aug", 8), ("sep", 9), ("oct", 10), ("nov", 11), ("dec", 12)]

/-- `%b`: case-insensitive three-letter month abbreviation. -/
def parseMonthAbbrev (cs : List Char) : Option (Nat × List Char) :=
  match cs with
  | a :: b :: c :: rest =>
    let w := String.mk [a.toLower, b.toLower, c.toLower]
    match monthAbbrevs.lookup w with
    | some m => some (m, rest)
    | none => none
  | _ => none

/-- `%z`: `Z` (UTC) or `±HH[:]MM` with an optional `[:]SS` part; the
total offset must be strictly less than 24 hours. -/
def parseTzOffset (cs : List Char) : Option (Int × List Char) :=
  match cs with
  | 'Z' :: rest => some (0, rest)
  | sgn :: rest =>
    if sgn = '+' ∨ sgn = '-' then do
      let (hh, rest) ← readNum 2 2 rest
      let rest := match expectChar ':' rest with
        | some r => r
        | none => rest
      let (mm, rest) ← readNum 2 2 rest
      let (ss, rest) := match expectChar ':' rest with
        | some r =>
          match readNum 2 2 r with
          | some (s, r') => (s, r')
          | none => (0, rest)
        | none =>
          match readNum 2 2 rest with
          | some (s, r') => (s, r')
          | none => (0, rest)
      if hh * 3600 + mm * 60 + ss < 24 * 3600 then
        let total : Int := (hh : Int) * 60 + (mm : Int)
        some (if sgn = '-' then -total else total, rest)
      else none
    else none
  | [] => none

/-- `%d/%b/%Y:%H:%M:%S %z` (must consume the whole string). -/
def parseTsApache (s : String) : Option DateTime := do
  let cs := s.toList
  let (d, cs) ← readNum 1 2 cs
  let cs ← expectChar '/' cs
  let (m, cs) ← parseMonthAbbrev cs
  let cs ← expectChar '/' cs
  let (y, cs) ← readNum 4 4 cs
  let cs ← expectChar ':' cs
  let (hh, cs) ← readNum 1 2 cs
  let cs ← expectChar ':' cs
  let (mm, cs) ← readNum 1 2 cs
  let cs ← expectChar ':' cs
  let (ss, cs) ← readNum 1 2 cs
  let cs ← expectChar ' ' cs
  let (tz, cs) ← parseTzOffset cs
  if validDate y m d hh mm ss then
    match cs with
    | [] => some ⟨y, m, d, hh, mm, ss, 0, some tz⟩
    | _ => none
  else none

/-- The three-format cascade used both in `process_log_file` (timestamp
validation) and in `update_summary_tables` (timeline bucketing):
millisecond local, then second local, then Apache with zone. -/
def parseTimestamp (s : String) : Option DateTime :=
  match parseTsMillis s with
  | some dt => some dt
  | none =>
    match parseTsSeconds s with
    | some dt => some dt
    | none => parseTsApache s

def pad2 (n : Nat) : String :=
  if n < 10 then "0" ++ toString n else toString n

def pad4 (n : Nat) : String :=
  if n < 10 then "000" ++ toString n
  else if n < 100 then "00" ++ toString n
  else if n < 1000 then "0" ++ toString n
  else toString n

/-- `dt.strftime('%Y-%m-%d %H:00:00')` — the timeline bucket key. -/
def hourKey (dt : DateTime) : String :=
  pad4 dt.year ++ "-" ++ pad2 dt.month ++ "-" ++ pad2 dt.day ++ " " ++
    pad2 dt.hour ++ ":00:00"

/-! ## Summary tables (`update_summary_tables`, backend.py lines 62-142)

Each of the four summary tables is keyed by `(job_id, dim1, dim2)` with
a `count` column and primary key on the triple, so it is an association
list from the key triple to the count.  Both the in-memory Python dict
(`batch[key] = batch.get(key, 0) + 1`) and the SQL
`INSERT ... ON CONFLICT ... DO UPDATE SET count = count + ?` are the
same upsert-add, `bump`. -/

abbrev Key3 := String × String × String

abbrev CountMap := List (Key3 × Nat)

/-- Upsert-add: add `n` to the count at `k`, inserting `(k, n)` if the
key is absent. -/
def bump (m : CountMap) (k : Key3) (n : Nat) : CountMap :=
  match m with
  | [] => [(k, n)]
  | (k', c) :: rest =>
    if k' = k then (k', c + n) :: rest else (k', c) :: bump rest k n

/-- `sum(count)` over a summary table. -/
def totalCount (m : CountMap) : Nat := (m.map Prod.snd).sum

/-- The entry dicts accumulated in `log_entries` (backend.py lines
321-327): all five keys are always present. -/
structure ParsedEntry where
  logtime : String
  level : String
  cls : String
  service : String
  log : String
deriving DecidableEq, Repr

/-- The four durable summary tables. -/
structure Summaries where
  class_level_counts : CountMap
  service_level_counts : CountMap
  timeline_counts : CountMap
  class_service_counts : CountMap
deriving DecidableEq, Repr

def Summaries.empty : Summaries := ⟨[], [], [], []⟩

/-- The four in-memory per-batch delta dicts plus the invalid-timestamp
counter of `update_summary_tables`. -/
structure Deltas where
  classLevel : CountMap
  serviceLevel : CountMap
  timeline : CountMap
  classService : CountMap
  invalidTs : Nat
deriving DecidableEq, Repr

/-- One iteration of the `for log_entry in batch:` loop of
`update_summary_tables`: add the entry to the four delta dicts,
guarding each key on Python truthiness (non-empty strings) and
bucketing parseable timestamps by hour. -/
def summaryStep (job_id : String) (d : Deltas) (e : ParsedEntry) : Deltas :=
  let level := e.level
  let class_name := e.cls
  let service := e.service
  let timestamp := e.logtime
  let d := if class_name ≠ "" ∧ level ≠ "" then
      { d with classLevel := bump d.classLevel (job_id, class_name, level) 1 }
    else d
  let d := if service ≠ "" ∧ level ≠ "" then
      { d with serviceLevel := bump d.serviceLevel (job_id, service, level) 1 }
    else d
  let d := if timestamp ≠ "" ∧ level ≠ "" then
      match parseTimestamp timestamp with
      | some dt =>
        { d with timeline := bump d.timeline (job_id, hourKey dt, level) 1 }
      | none => { d with invalidTs := d.invalidTs + 1 }
    else d
  let d := if class_name ≠ "" ∧ service ≠ "" then
      { d with classService := bump d.classService (job_id, class_name, service) 1 }
    else d
  d

/-- The whole batch loop of `update_summary_tables`. -/
def summaryDeltas (job_id : String) (batch : List ParsedEntry) : Deltas :=
  batch.foldl (summaryStep job_id) ⟨[], [], [], [], 0⟩

/-- The SQL upsert loop: merge one delta dict into its durable table. -/
def mergeCounts (table : CountMap) (delta : CountMap) : CountMap :=
  delta.foldl (fun t kc => bump t kc.1 kc.2) table

/-- `update_summary_tables(conn, job_id, batch)`: fold the batch into
the four delta dicts, then upsert each delta into its table.  (The
`conn.commit()` at the end of the Python function is accounted for by
the caller's commit trace.) -/
def update_summary_tables (job_id : String) (s : Summaries)
    (batch : List ParsedEntry) : Summaries :=
  let d := summaryDeltas job_id batch
  { class_level_counts := mergeCounts s.class_level_counts d.classLevel
    service_level_counts := mergeCounts s.service_level_counts d.serviceLevel
    timeline_counts := mergeCounts s.timeline_counts d.timeline
    class_service_counts := mergeCounts s.class_service_counts d.classService }

/-! ## The durable store -/

/-- One row of the `logs` table (the autoincrement `id` is omitted). -/
structure RawRow where
  job_id : String
  timestamp : String
  level : String
  cls : String
  service : String
  log_message : String
  folder : String
  file_name : String
  line_idx : Nat
deriving DecidableEq, Repr

/-- One row of the `jobs` table (only the fields the claims are about:
`folder_path`, `status`, `files_processed`, `total_files`; the
timestamp columns and `current_file` are advisory strings with no
invariants). -/
structure JobsRow where
  folder_path : String
  status : String
  files_processed : Nat
  total_files : Nat
deriving DecidableEq, Repr

/-- The durable database: `logs`, the four summary tables,
`job_metadata` (rows `(job_id, type, value)` with a `UNIQUE` triple
constraint) and `jobs`. -/
structure DB where
  logs : List RawRow
  sums : Summaries
  job_metadata : List (String × String × String)
  jobs : List (String × JobsRow)
deriving DecidableEq, Repr

def DB.empty : DB := ⟨[], Summaries.empty, [], []⟩

/-- `INSERT OR IGNORE INTO job_metadata`. -/
def insertOrIgnore (md : List (String × String × String))
    (row : String × String × String) : List (String × String × String) :=
  if row ∈ md then md else md ++ [row]

/-- `UPDATE jobs SET ... WHERE job_id = ?`. -/
def updateJobs (db : DB) (job_id : String) (f : JobsRow → JobsRow) : DB :=
  { db with jobs := db.jobs.map (fun jr => if jr.1 = job_id then (jr.1, f jr.2) else jr) }

/-- The `jobs` row for a job id (absent rows read as a default row,
matching a `SELECT` that returns nothing). -/
def jobsRow (db : DB) (job_id : String) : JobsRow :=
  (db.jobs.lookup job_id).getD ⟨"", "", 0, 0⟩

/-- The processed-file entries of a metadata table, in insertion
order. -/
def ledgerOf (md : List (String × String × String)) (job_id : String) :
    List String :=
  (md.filter (fun r => r.1 = job_id ∧ r.2.1 = "processed_file")).map
    (fun r => r.2.2)

/-- The processed-file ledger entries for a job, in insertion order. -/
def ledger (db : DB) (job_id : String) : List String :=
  ledgerOf db.job_metadata job_id

/-- The default `jobsRow` read for an absent row. -/
def JobsRow.missing : JobsRow := ⟨"", "", 0, 0⟩

/-! ## `process_log_file` (backend.py lines 268-395) -/

/-- `batch_size = 500` (backend.py line 272). -/
def batch_size : Nat := 500

/-- Python `s.startswith(pre)` (kernel-computable form). -/
def strStarts (s pre : String) : Bool := pre.toList.isPrefixOf s.toList

/-- `os.path.basename` for forward-slash paths. -/
def basename (p : String) : String :=
  match breakAtSlashLast p.toList with
  | some (_, b) => String.mk b
  | none => p
where
  breakAtSlashLast : List Char → Option (List Char × List Char)
    | [] => none
    | c :: cs =>
      match breakAtSlashLast cs with
      | some (a, b) => some (c :: a, b)
      | none => if c = '/' then some ([], cs) else none

/-- `os.path.dirname` for forward-slash paths. -/
def dirname (p : String) : String :=
  match basename.breakAtSlashLast p.toList with
  | some (a, _) => String.mk a
  | none => ""

/-- The local accumulators of `process_log_file`: the pending raw-row
batch, the matching entry dicts, the distinct class/service names seen
since the last flush, and the two diagnostic counters (which are never
reset at a flush). -/
structure FileAcc where
  log_batch : List RawRow
  log_entries : List ParsedEntry
  classes : List String
  services : List String
  missing_class_count : Nat
  invalid_timestamp_count : Nat
deriving DecidableEq, Repr

def FileAcc.init : FileAcc := ⟨[], [], [], [], 0, 0⟩

/-- Python `set.add`. -/
def addDistinct (l : List String) (x : String) : List String :=
  if x ∈ l then l else l ++ [x]

/-- The tuple appended to `log_batch` for one decoded line (backend.py
line 320). -/
def mkRow (validLevels : List String) (job_id folder file_name : String)
    (line_idx : Nat) (e : LogEntry) : RawRow :=
  { job_id := job_id
    timestamp := e.logtime.getD ""
    level := extractLevel validLevels e
    cls := (extractClassService e).1
    service := (extractClassService e).2.1
    log_message := e.log.getD ""
    folder := folder
    file_name := file_name
    line_idx := line_idx }

/-- The dict appended to `log_entries` for one decoded line (backend.py
lines 321-327). -/
def mkEntry (validLevels : List String) (e : LogEntry) : ParsedEntry :=
  { logtime := e.logtime.getD ""
    level := extractLevel validLevels e
    cls := (extractClassService e).1
    service := (extractClassService e).2.1
    log := e.log.getD "" }

/-- The body of the per-line `try:` block (backend.py lines 290-329):
decode failure (`none`) is skipped; otherwise extract the fields,
count a missing/malformed class and an invalid non-empty timestamp,
and append to the pending batch. -/
def processLine (validLevels : List String) (job_id folder file_name : String)
    (line_idx : Nat) (line : Line) (acc : FileAcc) : FileAcc :=
  match line with
  | none => acc
  | some e =>
    let timestamp := e.logtime.getD ""
    let missing := (extractClassService e).2.2
    let invalid := timestamp ≠ "" ∧ (parseTimestamp timestamp).isNone
    { log_batch := acc.log_batch ++ [mkRow validLevels job_id folder file_name line_idx e]
      log_entries := acc.log_entries ++ [mkEntry validLevels e]
      classes := addDistinct acc.classes (extractClassService e).1
      services := addDistinct acc.services (extractClassService e).2.1
      missing_class_count :=
        acc.missing_class_count + (if missing then 1 else 0)
      invalid_timestamp_count :=
        acc.invalid_timestamp_count + (if invalid then 1 else 0) }

/-- The rows a file's decoded lines contribute to the `logs` table,
with their line indices (the composition of `mkRow` over the
JSON-decodable lines, starting at index `line_idx`). -/
def fileRows (validLevels : List String) (job_id folder file_name : String) :
    List Line → Nat → List RawRow
  | [], _ => []
  | none :: rest, line_idx =>
    fileRows validLevels job_id folder file_name rest (line_idx + 1)
  | some e :: rest, line_idx =>
    mkRow validLevels job_id folder file_name line_idx e ::
      fileRows validLevels job_id folder file_name rest (line_idx + 1)

/-- The flush block (backend.py lines 331-349 and 360-378).  It
produces two durable snapshots: `update_summary_tables` commits the raw
rows together with the summary upserts (its own `conn.commit()`), and
the trailing `conn.commit()` makes the class/service metadata durable. -/
def flushBatch (job_id : String) (db : DB) (acc : FileAcc) : DB × DB :=
  let db1 : DB :=
    { db with
      logs := db.logs ++ acc.log_batch
      sums := update_summary_tables job_id db.sums acc.log_entries }
  let md := acc.classes.foldl
    (fun m c => insertOrIgnore m (job_id, "class", c)) db1.job_metadata
  let md := acc.services.foldl
    (fun m s => insertOrIgnore m (job_id, "service", s)) md
  (db1, { db1 with job_metadata := md })

/-- Clear the batch lists and name sets after a flush (backend.py lines
350-353); the diagnostic counters persist. -/
def resetAcc (acc : FileAcc) : FileAcc :=
  { acc with log_batch := [], log_entries := [], classes := [], services := [] }

/-- The `for line_idx, line in enumerate(lines):` loop.  Returns the
durable snapshots committed so far (in commit order), the database
after the last commit, and the pending accumulators. -/
def processLines (validLevels : List String) (job_id folder file_name : String) :
    List Line → Nat → DB → FileAcc → List DB × DB × FileAcc
  | [], _, db, acc => ([], db, acc)
  | line :: rest, line_idx, db, acc =>
    let acc' := processLine validLevels job_id folder file_name line_idx line acc
    if batch_size ≤ acc'.log_batch.length then
      let flushed := flushBatch job_id db acc'
      let r := processLines validLevels job_id folder file_name rest
        (line_idx + 1) flushed.2 (resetAcc acc')
      (flushed.1 :: flushed.2 :: r.1, r.2)
    else
      processLines validLevels job_id folder file_name rest (line_idx + 1) db acc'

/-- The result of `process_log_file`: the commit trace (all durable
snapshots, in order), the final database, and the two diagnostic
counters that the function logs on success. -/
structure FileResult where
  trace : List DB
  db : DB
  missing_class_count : Nat
  invalid_timestamp_count : Nat
deriving DecidableEq, Repr

/-- `process_log_file(file_path, job_id, conn, ...)`: stream the lines
through the batching loop, flush the final partial batch if any, then
insert and commit the `processed_file` ledger marker (backend.py lines
380-385) strictly last. -/
def process_log_file (validLevels : List String) (job_id file_path : String)
    (lines : List Line) (db : DB) : FileResult :=
  let folder := dirname file_path
  let file_name := basename file_path
  let r := processLines validLevels job_id folder file_name lines 0 db FileAcc.init
  let db1 := r.2.1
  let acc := r.2.2
  let (tr2, db2) :=
    if acc.log_batch ≠ [] then
      let flushed := flushBatch job_id db1 acc
      (r.1 ++ [flushed.1, flushed.2], flushed.2)
    else (r.1, db1)
  let db3 : DB :=
    { db2 with job_metadata := db2.job_metadata ++ [(job_id, "processed_file", file_path)] }
  ⟨tr2 ++ [db3], db3, acc.missing_class_count, acc.invalid_timestamp_count⟩

/-! ## S3 path enumeration (`generate_s3_paths`, backend.py lines 144-168)

`datetime.strptime(s, '%Y%m%d-%H')` is modelled by `parseYmdH`, which
returns the absolute hour count of the parsed instant (a naive
`datetime` compares and steps by `timedelta(hours=1)` exactly as its
absolute hour count does).  Calendar arithmetic follows the proleptic
Gregorian calendar of Python's `datetime` (`date.toordinal`). -/

/-- Days in years `1 .. y-1` (ordinal of Jan 1 of year `y`, minus 1). -/
def daysBeforeYear (y : Nat) : Nat :=
  365 * (y - 1) + (y - 1) / 4 - (y - 1) / 100 + (y - 1) / 400

/-- Days in months `1 .. m-1` of year `y`. -/
def daysBeforeMonth (y m : Nat) : Nat :=
  (List.range (m - 1)).foldl (fun a i => a + daysInMonth y (i + 1)) 0

/-- Absolute hour count of a calendar instant (days since 0001-01-01
times 24, plus the hour). -/
def absHour (y m d h : Nat) : Nat :=
  (daysBeforeYear y + daysBeforeMonth y m + (d - 1)) * 24 + h

/-- Digit value of a character. -/
def dv (c : Char) : Nat := c.toNat - '0'.toNat

/-- The ordered alternatives of CPython `_strptime`'s `%m` group,
`1[0-2]|0[1-9]|[1-9]`: each give the parsed month and the unconsumed
rest, in the order the regex engine tries them. -/
def mAlts : List Char → List (Nat × List Char)
  | [] => []
  | [a] => if '1' ≤ a ∧ a ≤ '9' then [(dv a, [])] else []
  | a :: b :: rest =>
    (if a = '1' ∧ '0' ≤ b ∧ b ≤ '2' then [(10 + dv b, rest)] else [])
    ++ (if a = '0' ∧ '1' ≤ b ∧ b ≤ '9' then [(dv b, rest)] else [])
    ++ (if '1' ≤ a ∧ a ≤ '9' then [(dv a, b :: rest)] else [])

/-- The ordered alternatives of `_strptime`'s `%d` group,
`3[0-1]|[1-2]\d|0[1-9]|[1-9]| [1-9]`. -/
def dAlts : List Char → List (Nat × List Char)
  | [] => []
  | [a] => if '1' ≤ a ∧ a ≤ '9' then [(dv a, [])] else []
  | a :: b :: rest =>
    (if a = '3' ∧ '0' ≤ b ∧ b ≤ '1' then [(30 + dv b, rest)] else [])
    ++ (if '1' ≤ a ∧ a ≤ '2' ∧ b.isDigit then [(10 * dv a + dv b, rest)] else [])
    ++ (if a = '0' ∧ '1' ≤ b ∧ b ≤ '9' then [(dv b, rest)] else [])
    ++ (if '1' ≤ a ∧ a ≤ '9' then [(dv a, b :: rest)] else [])
    ++ (if a = ' ' ∧ '1' ≤ b ∧ b ≤ '9' then [(dv b, rest)] else [])

/-- The ordered alternatives of `_strptime`'s `%H` group,
`2[0-3]|[0-1]\d|\d`. -/
def hAlts : List Char → List (Nat × List Char)
  | [] => []
  | [a] => if a.isDigit then [(dv a, [])] else []
  | a :: b :: rest =>
    (if a = '2' ∧ '0' ≤ b ∧ b ≤ '3' then [(20 + dv b, rest)] else [])
    ++ (if '0' ≤ a ∧ a ≤ '1' ∧ b.isDigit then [(10 * dv a + dv b, rest)] else [])
    ++ (if a.isDigit then [(dv a, b :: rest)] else [])

/-- The first match of the `%m%d-%H` tail of the pattern, with the
regex engine's ordered-alternation backtracking: a later element
failing sends the search to the next alternative of an earlier group,
but the first full-pattern match is final even if it leaves input
unconsumed (`strptime` then rejects the leftover, it does not resume
the search). -/
def matchMdH (cs : List Char) : Option (Nat × Nat × Nat × List Char) :=
  (mAlts cs).findSome? (fun mm =>
    (dAlts mm.2).findSome? (fun dd =>
      match dd.2 with
      | '-' :: cs2 => (hAlts cs2).head?.map (fun hh => (mm.1, dd.1, hh.1, hh.2))
      | _ => none))

/-- `datetime.strptime(s, '%Y%m%d-%H')`: CPython compiles the format to
the anchored regex `(\d\d\d\d)(1[0-2]|0[1-9]|[1-9])(3[0-1]|[1-2]\d|0[1-9]|[1-9]| [1-9])-(2[0-3]|[0-1]\d|\d)`
— value-aware ordered alternation with backtracking, so e.g.
`2024131-05` parses as 2024-01-31 hour 5 — raises `ValueError` if no
match or if input remains after the match ("unconverted data
remains"), and hands the groups to the `datetime` constructor, whose
range checks reject year 0 and a day beyond the month's length
(digits taken as ASCII). -/
def parseYmdH (s : String) : Option Nat := do
  let (y, cs) ← readNum 4 4 s.toList
  let (m, d, h, rest) ← matchMdH cs
  match rest with
  | [] => if validDate y m d h 0 0 then some (absHour y m d h) else none
  | _ => none

/-- Find the year containing ordinal day `days` by stepping up from
year 1 (fuel bounds the walk; `days / 365 + 1` steps always suffice). -/
def yearUp (days : Nat) : Nat → Nat → Nat
  | y, 0 => y
  | y, fuel + 1 => if daysBeforeYear (y + 1) ≤ days then yearUp days (y + 1) fuel else y

/-- Calendar date `(y, m, d)` of an absolute day count. -/
def dateFromDays (days : Nat) : Nat × Nat × Nat :=
  let y := yearUp days 1 (days / 365 + 1)
  let rem := days - daysBeforeYear y
  let m := ((List.range 12).filter (fun i => decide (daysBeforeMonth y (i + 1) ≤ rem))).length
  (y, m, rem - daysBeforeMonth y m + 1)

/-- `current_dt.strftime('%Y%m%d-%H')`. -/
def formatYmdH (n : Nat) : String :=
  let md := dateFromDays (n / 24)
  pad4 md.1 ++ pad2 md.2.1 ++ pad2 md.2.2 ++ "-" ++ pad2 (n % 24)

/-- The `while current_dt <= end_dt:` loop, as the list of hours it
visits (one per iteration, stepping by one hour). -/
def genHours (end_dt : Nat) (current_dt : Nat) : List Nat :=
  if current_dt ≤ end_dt then current_dt :: genHours end_dt (current_dt + 1) else []
termination_by end_dt + 1 - current_dt
decreasing_by omega

inductive PathsResult where
  | ok (paths : List String)
  | httpError (code : Nat)
deriving DecidableEq, Repr

/-- `generate_s3_paths(customer_folder, start_datetime, end_datetime)`:
parse both bounds, reject `start > end` (a `ValueError`, like a parse
failure, surfaces as an HTTP 400), and otherwise collect one
`"{customer_folder}/{YYYYMMDD-HH}/"` per visited hour. -/
def generate_s3_paths (customer_folder start_datetime end_datetime : String) :
    PathsResult :=
  match parseYmdH start_datetime, parseYmdH end_datetime with
  | some start_dt, some end_dt =>
    if start_dt > end_dt then .httpError 400
    else .ok ((genHours end_dt start_dt).map
      (fun h => customer_folder ++ "/" ++ formatYmdH h ++ "/"))
  | _, _ => .httpError 400

/-! ## The job controller (`process_job`, backend.py lines 397-546)

The filesystem is an external input: a `LocalEnv` carries the answer of
`os.path.isdir` and the `.gz` files found by `os.walk`, each with its
content — `Except.error ()` standing for a file whose read raises (the
exception unwinds out of `process_log_file` into `process_job`'s
handler).  The in-memory `job_states[job_id]['status']` flag, which
`pause_job` may flip at any moment and the loop polls once per file
boundary, is modelled by the predicate `pausedAt`: its value at each
boundary check. -/

structure LocalEnv where
  folder_path : String
  isDir : Bool
  files : List (String × Except Unit (List Line))
deriving Repr

inductive JobOutcome where
  | completed
  | paused
  | errored
  | invalidSource
deriving DecidableEq, Repr

structure JobResult where
  db : DB
  mem : JobsRow
  outcome : JobOutcome
deriving Repr

/-- The `for idx, file_path in enumerate(log_files):` loop plus the
completion update and the generic `except` handler of `process_job`:
skip files already in the ledger snapshot, honor a pause at the
boundary check (persisting the in-memory `files_processed`), let a
failing file transition the job to `ERROR` with the in-memory counters,
and otherwise run `process_log_file` and bump the counters. -/
def processFiles (validLevels : List String) (job_id : String)
    (pausedAt : Nat → Bool) (processed_files : List String) :
    List (String × Except Unit (List Line)) → Nat → DB → JobsRow → JobResult
  | [], _, db, mem =>
    let mem := { mem with status := "COMPLETED" }
    let db := updateJobs db job_id (fun j =>
      { j with status := "COMPLETED"
               files_processed := mem.files_processed
               total_files := mem.total_files })
    ⟨db, mem, .completed⟩
  | (file_path, content) :: rest, idx, db, mem =>
    if file_path ∈ processed_files then
      processFiles validLevels job_id pausedAt processed_files rest (idx + 1) db mem
    else if pausedAt idx then
      let db := updateJobs db job_id (fun j =>
        { j with status := "PAUSED", files_processed := mem.files_processed })
      ⟨db, { mem with status := "PAUSED" }, .paused⟩
    else
      match content with
      | .error _ =>
        let mem := { mem with status := "ERROR" }
        let db := updateJobs db job_id (fun j =>
          { j with status := "ERROR"
                   files_processed := mem.files_processed
                   total_files := mem.total_files })
        ⟨db, mem, .errored⟩
      | .ok lines =>
        let fr := process_log_file validLevels job_id file_path lines db
        let mem := { mem with files_processed := mem.files_processed + 1 }
        let db := updateJobs fr.db job_id (fun j =>
          { j with files_processed := mem.files_processed })
        processFiles validLevels job_id pausedAt processed_files rest (idx + 1) db mem

/-- `process_job(job_id, folder_path, ...)`, local-source branch: an
invalid root writes `ERROR` with both counters zeroed and raises; zero
files completes immediately with both counters zeroed; otherwise the
already-processed set is re-derived from the ledger, the job row is set
`RUNNING` with `files_processed = len(processed_files)`, and the file
loop runs. -/
def process_job (validLevels : List String) (job_id : String) (env : LocalEnv)
    (pausedAt : Nat → Bool) (db : DB) : JobResult :=
  if ¬ env.isDir then
    let db := updateJobs db job_id (fun j =>
      { j with status := "ERROR", total_files := 0, files_processed := 0 })
    ⟨db, { (jobsRow db job_id) with status := "ERROR" }, .invalidSource⟩
  else
    let total_files := env.files.length
    if total_files = 0 then
      let db := updateJobs db job_id (fun j =>
        { j with status := "COMPLETED", total_files := 0, files_processed := 0 })
      ⟨db, { (jobsRow db job_id) with status := "COMPLETED" }, .completed⟩
    else
      let processed_files := (ledger db job_id).dedup
      let files_processed := processed_files.length
      let mem : JobsRow :=
        { (jobsRow db job_id) with
          status := "RUNNING"
          files_processed := files_processed
          total_files := total_files }
      let db := updateJobs db job_id (fun j =>
        { j with status := "RUNNING"
                 total_files := total_files
                 files_processed := files_processed })
      processFiles validLevels job_id pausedAt processed_files env.files 0 db mem

/-! ## Control endpoints (`start_job`, `pause_job`, `resume_job`) -/

inductive CtlResult where
  | ok
  | httpError (code : Nat)
deriving DecidableEq, Repr

/-- `pause_job(job_id)` (backend.py lines 702-729), given the in-memory
status (`none` when the job id is unknown): a 404 for an unknown job, a
400 unless `RUNNING`, and otherwise it only flips the status flag —
the `UPDATE` touches `status` and `last_updated`, never the counters or
the ledger. -/
def pause_job (job_id : String) (memStatus : Option String) (db : DB) :
    CtlResult × DB :=
  match memStatus with
  | none => (.httpError 404, db)
  | some st =>
    if st ≠ "RUNNING" then (.httpError 400, db)
    else (.ok, updateJobs db job_id (fun j => { j with status := "PAUSED" }))

inductive ResumeResult where
  | httpError (code : Nat)
  | resumed (folder_path : String)
deriving DecidableEq, Repr

/-- `resume_job(job_id)` (backend.py lines 731-786), returning the
HTTP result, the in-memory `job_states` status after the call, and the
store.  Outside its `try`: a 404 for an unknown job and a 400 unless
`PAUSED`.  Inside the `try`, the in-memory status is flipped to
`RUNNING` first; the `HTTPException`s raised further down — a 404 when
the `jobs` row is gone, and the unconditional 400 ("S3 job resumption
requires re-specifying parameters") when the stored `folder_path`
starts with `s3://k8-customer-logs/` — are caught by the function's
own `except Exception` and re-raised as HTTP 500, with the in-memory
flip never reverted and the store untouched.  The persisted
`start_datetime`/`end_datetime` metadata is never consulted.  A local
job has its row set `RUNNING` and `process_job` re-spawned on its
folder path. -/
def resume_job (job_id : String) (memStatus : Option String) (db : DB) :
    ResumeResult × Option String × DB :=
  match memStatus with
  | none => (.httpError 404, none, db)
  | some st =>
    if st ≠ "PAUSED" then (.httpError 400, some st, db)
    else
      match db.jobs.lookup job_id with
      | none => (.httpError 500, some "RUNNING", db)
      | some row =>
        if strStarts row.folder_path "s3://k8-customer-logs/" then
          (.httpError 500, some "RUNNING", db)
        else
          (.resumed row.folder_path, some "RUNNING",
            updateJobs db job_id (fun j => { j with status := "RUNNING" }))

/-- The S3 branch of `start_job` (backend.py lines 605-655): validate
both datetimes against `%Y%m%d-%H`, insert the `RUNNING` jobs row with
`folder_path = s3://k8-customer-logs/{customer_folder}`, and persist
`start_datetime`/`end_datetime` as metadata entries. -/
def start_job_s3 (job_id customer_folder start_datetime end_datetime : String)
    (db : DB) : Option DB :=
  match parseYmdH start_datetime, parseYmdH end_datetime with
  | some _, some _ =>
    let folder_path := "s3://k8-customer-logs/" ++ customer_folder
    let db : DB := { db with jobs := db.jobs ++
      [(job_id, ⟨folder_path, "RUNNING", 0, 0⟩)] }
    let md := insertOrIgnore db.job_metadata (job_id, "start_datetime", start_datetime)
    let md := insertOrIgnore md (job_id, "end_datetime", end_datetime)
    some { db with job_metadata := md }
  | _, _ => none

/-! ## Predicates for the round-trip accounting

Which entries/rows each summary table counts, read off the guards of
`update_summary_tables`. -/

def pCL (e : ParsedEntry) : Bool := decide (e.cls ≠ "" ∧ e.level ≠ "")

def pSL (e : ParsedEntry) : Bool := decide (e.service ≠ "" ∧ e.level ≠ "")

def pTL (e : ParsedEntry) : Bool :=
  decide (e.logtime ≠ "" ∧ e.level ≠ "") && (parseTimestamp e.logtime).isSome

def pCS (e : ParsedEntry) : Bool := decide (e.cls ≠ "" ∧ e.service ≠ "")

def rCL (r : RawRow) : Bool := decide (r.cls ≠ "" ∧ r.level ≠ "")

def rSL (r : RawRow) : Bool := decide (r.service ≠ "" ∧ r.level ≠ "")

def rTL (r : RawRow) : Bool :=
  decide (r.timestamp ≠ "" ∧ r.level ≠ "") && (parseTimestamp r.timestamp).isSome

def rCS (r : RawRow) : Bool := decide (r.cls ≠ "" ∧ r.service ≠ "")

/-! ## Counting lemmas for the summary upserts -/

theorem totalCount_bump (m : CountMap) (k : Key3) (n : Nat) :
    totalCount (bump m k n) = totalCount m + n := by
  induction m with
  | nil => simp [bump, totalCount]
  | cons kv rest ih =>
    obtain ⟨k', c⟩ := kv
    by_cases h : k' = k <;> simp [bump, h, totalCount] at ih ⊢ <;> omega

theorem totalCount_mergeCounts (t d : CountMap) :
    totalCount (mergeCounts t d) = totalCount t + totalCount d := by
  induction d generalizing t with
  | nil => rfl
  | cons kv rest ih =>
    have h : mergeCounts t (kv :: rest) = mergeCounts (bump t kv.1 kv.2) rest := rfl
    rw [h, ih, totalCount_bump]
    simp [totalCount]
    omega

theorem summaryStep_classLevel (j : String) (d : Deltas) (e : ParsedEntry) :
    (summaryStep j d e).classLevel
      = if e.cls ≠ "" ∧ e.level ≠ "" then
          bump d.classLevel (j, e.cls, e.level) 1
        else d.classLevel := by
  simp only [summaryStep]
  rcases hp : parseTimestamp e.logtime with _ | dt <;>
    simp only [hp] <;> split_ifs <;> rfl

theorem summaryStep_serviceLevel (j : String) (d : Deltas) (e : ParsedEntry) :
    (summaryStep j d e).serviceLevel
      = if e.service ≠ "" ∧ e.level ≠ "" then
          bump d.serviceLevel (j, e.service, e.level) 1
        else d.serviceLevel := by
  simp only [summaryStep]
  rcases hp : parseTimestamp e.logtime with _ | dt <;>
    simp only [hp] <;> split_ifs <;> rfl

theorem summaryStep_timeline (j : String) (d : Deltas) (e : ParsedEntry) :
    (summaryStep j d e).timeline
      = if e.logtime ≠ "" ∧ e.level ≠ "" then
          (match parseTimestamp e.logtime with
            | some dt => bump d.timeline (j, hourKey dt, e.level) 1
            | none => d.timeline)
        else d.timeline := by
  simp only [summaryStep]
  rcases hp : parseTimestamp e.logtime with _ | dt <;>
    simp only [hp] <;> split_ifs <;> rfl

theorem summaryStep_classService (j : String) (d : Deltas) (e : ParsedEntry) :
    (summaryStep j d e).classService
      = if e.cls ≠ "" ∧ e.service ≠ "" then
          bump d.classService (j, e.cls, e.service) 1
        else d.classService := by
  simp only [summaryStep]
  rcases hp : parseTimestamp e.logtime with _ | dt <;>
    simp only [hp] <;> split_ifs <;> rfl

theorem summaryStep_totals (j : String) (d : Deltas) (e : ParsedEntry) :
    totalCount (summaryStep j d e).classLevel
        = totalCount d.classLevel + (if pCL e then 1 else 0)
    ∧ totalCount (summaryStep j d e).serviceLevel
        = totalCount d.serviceLevel + (if pSL e then 1 else 0)
    ∧ totalCount (summaryStep j d e).timeline
        = totalCount d.timeline + (if pTL e then 1 else 0)
    ∧ totalCount (summaryStep j d e).classService
        = totalCount d.classService + (if pCS e then 1 else 0) := by
  refine ⟨?_, ?_, ?_, ?_⟩
  · rw [summaryStep_classLevel]
    by_cases h : e.cls ≠ "" ∧ e.level ≠ "" <;>
      simp [h, pCL, totalCount_bump]
  · rw [summaryStep_serviceLevel]
    by_cases h : e.service ≠ "" ∧ e.level ≠ "" <;>
      simp [h, pSL, totalCount_bump]
  · rw [summaryStep_timeline]
    by_cases h : e.logtime ≠ "" ∧ e.level ≠ ""
    · rcases hp : parseTimestamp e.logtime with _ | dt <;>
        simp [h, hp, pTL, totalCount_bump]
    · simp [pTL, h]
  · rw [summaryStep_classService]
    by_cases h : e.cls ≠ "" ∧ e.service ≠ "" <;>
      simp [h, pCS, totalCount_bump]

theorem foldl_summaryStep_totals (j : String) (batch : List ParsedEntry)
    (d : Deltas) :
    totalCount (batch.foldl (summaryStep j) d).classLevel
        = totalCount d.classLevel + batch.countP pCL
    ∧ totalCount (batch.foldl (summaryStep j) d).serviceLevel
        = totalCount d.serviceLevel + batch.countP pSL
    ∧ totalCount (batch.foldl (summaryStep j) d).timeline
        = totalCount d.timeline + batch.countP pTL
    ∧ totalCount (batch.foldl (summaryStep j) d).classService
        = totalCount d.classService + batch.countP pCS := by
  induction batch generalizing d with
  | nil => simp
  | cons e rest ih =>
    obtain ⟨h1, h2, h3, h4⟩ := summaryStep_totals j d e
    obtain ⟨g1, g2, g3, g4⟩ := ih (summaryStep j d e)
    simp only [List.foldl_cons, List.countP_cons] at *
    refine ⟨?_, ?_, ?_, ?_⟩ <;> split_ifs at * <;> omega

theorem update_summary_tables_totals (j : String) (s : Summaries)
    (batch : List ParsedEntry) :
    totalCount (update_summary_tables j s batch).class_level_counts
        = totalCount s.class_level_counts + batch.countP pCL
    ∧ totalCount (update_summary_tables j s batch).service_level_counts
        = totalCount s.service_level_counts + batch.countP pSL
    ∧ totalCount (update_summary_tables j s batch).timeline_counts
        = totalCount s.timeline_counts + batch.countP pTL
    ∧ totalCount (update_summary_tables j s batch).class_service_counts
        = totalCount s.class_service_counts + batch.countP pCS := by
  obtain ⟨h1, h2, h3, h4⟩ := foldl_summaryStep_totals j batch ⟨[], [], [], [], 0⟩
  simp only [update_summary_tables, summaryDeltas, totalCount_mergeCounts]
  simp only [summaryDeltas] at h1 h2 h3 h4
  constructor
  · rw [h1]; simp [totalCount]
  constructor
  · rw [h2]; simp [totalCount]
  constructor
  · rw [h3]; simp [totalCount]
  · rw [h4]; simp [totalCount]

/-! ## Correspondence between appended rows and appended entries -/

theorem pCL_mkEntry (vl : List String) (j fo fn : String) (i : Nat) (e : LogEntry) :
    pCL (mkEntry vl e) = rCL (mkRow vl j fo fn i e) := rfl

theorem pSL_mkEntry (vl : List String) (j fo fn : String) (i : Nat) (e : LogEntry) :
    pSL (mkEntry vl e) = rSL (mkRow vl j fo fn i e) := rfl

theorem pTL_mkEntry (vl : List String) (j fo fn : String) (i : Nat) (e : LogEntry) :
    pTL (mkEntry vl e) = rTL (mkRow vl j fo fn i e) := rfl

theorem pCS_mkEntry (vl : List String) (j fo fn : String) (i : Nat) (e : LogEntry) :
    pCS (mkEntry vl e) = rCS (mkRow vl j fo fn i e) := rfl

/-! ## Invariants of the batched write path -/

/-- The round-trip invariant on the durable store: each summary table's
total equals the number of raw rows satisfying its guard. -/
structure SumsOk (db : DB) : Prop where
  cl : totalCount db.sums.class_level_counts = db.logs.countP rCL
  sl : totalCount db.sums.service_level_counts = db.logs.countP rSL
  tl : totalCount db.sums.timeline_counts = db.logs.countP rTL
  cs : totalCount db.sums.class_service_counts = db.logs.countP rCS

/-- The matching invariant on the pending accumulators: the entry dicts
and the raw-row batch agree on each guard's count. -/
structure AccOk (acc : FileAcc) : Prop where
  cl : acc.log_entries.countP pCL = acc.log_batch.countP rCL
  sl : acc.log_entries.countP pSL = acc.log_batch.countP rSL
  tl : acc.log_entries.countP pTL = acc.log_batch.countP rTL
  cs : acc.log_entries.countP pCS = acc.log_batch.countP rCS

theorem accOk_init : AccOk FileAcc.init := ⟨rfl, rfl, rfl, rfl⟩

theorem accOk_resetAcc (acc : FileAcc) : AccOk (resetAcc acc) := ⟨rfl, rfl, rfl, rfl⟩

theorem accOk_processLine (vl : List String) (j fo fn : String) (i : Nat)
    (line : Line) (acc : FileAcc) (h : AccOk acc) :
    AccOk (processLine vl j fo fn i line acc) := by
  cases line with
  | none => exact h
  | some e =>
    refine ⟨?_, ?_, ?_, ?_⟩ <;>
      simp only [processLine, List.countP_append, List.countP_cons,
        List.countP_nil, pCL_mkEntry vl j fo fn i, pSL_mkEntry vl j fo fn i,
        pTL_mkEntry vl j fo fn i, pCS_mkEntry vl j fo fn i, h.cl, h.sl, h.tl, h.cs]

theorem sumsOk_flushBatch (j : String) (db : DB) (acc : FileAcc)
    (hdb : SumsOk db) (hacc : AccOk acc) :
    SumsOk (flushBatch j db acc).1 ∧ SumsOk (flushBatch j db acc).2 := by
  obtain ⟨u1, u2, u3, u4⟩ := update_summary_tables_totals j db.sums acc.log_entries
  have hfst : SumsOk (flushBatch j db acc).1 := by
    refine ⟨?_, ?_, ?_, ?_⟩ <;>
      simp only [flushBatch, u1, u2, u3, u4, hdb.cl, hdb.sl, hdb.tl, hdb.cs,
        hacc.cl, hacc.sl, hacc.tl, hacc.cs, List.countP_append]
  exact ⟨hfst, ⟨hfst.cl, hfst.sl, hfst.tl, hfst.cs⟩⟩

theorem processLines_sumsOk (vl : List String) (j fo fn : String)
    (lines : List Line) (idx : Nat) (db : DB) (acc : FileAcc)
    (hdb : SumsOk db) (hacc : AccOk acc) :
    SumsOk (processLines vl j fo fn lines idx db acc).2.1
    ∧ AccOk (processLines vl j fo fn lines idx db acc).2.2 := by
  induction lines generalizing idx db acc with
  | nil => exact ⟨hdb, hacc⟩
  | cons line rest ih =>
    have hacc' := accOk_processLine vl j fo fn idx line acc hacc
    simp only [processLines]
    split
    · exact ih (idx + 1) _ _
        (sumsOk_flushBatch j db _ hdb hacc').2 (accOk_resetAcc _)
    · exact ih (idx + 1) db _ hdb hacc'

theorem process_log_file_sumsOk (vl : List String) (j p : String)
    (lines : List Line) (db : DB) (hdb : SumsOk db) :
    SumsOk (process_log_file vl j p lines db).db := by
  obtain ⟨h1, h2⟩ := processLines_sumsOk vl j (dirname p) (basename p) lines 0 db
    FileAcc.init hdb accOk_init
  simp only [process_log_file]
  split
  · have := (sumsOk_flushBatch j _ _ h1 h2).2
    exact ⟨this.cl, this.sl, this.tl, this.cs⟩
  · exact ⟨h1.cl, h1.sl, h1.tl, h1.cs⟩

/-! ## Characterization of the rows a file contributes -/

theorem processLines_logs (vl : List String) (j fo fn : String)
    (lines : List Line) (idx : Nat) (db : DB) (acc : FileAcc) :
    (processLines vl j fo fn lines idx db acc).2.1.logs
        ++ (processLines vl j fo fn lines idx db acc).2.2.log_batch
      = db.logs ++ acc.log_batch ++ fileRows vl j fo fn lines idx := by
  induction lines generalizing idx db acc with
  | nil => simp [processLines, fileRows]
  | cons line rest ih =>
    simp only [processLines]
    split
    · rw [ih]
      cases line with
      | none => simp [processLine, flushBatch, resetAcc, fileRows]
      | some e => simp [processLine, flushBatch, resetAcc, fileRows]
    · rw [ih]
      cases line with
      | none => simp [processLine, fileRows]
      | some e => simp [processLine, fileRows]

theorem process_log_file_logs (vl : List String) (j p : String)
    (lines : List Line) (db : DB) :
    (process_log_file vl j p lines db).db.logs
      = db.logs ++ fileRows vl j (dirname p) (basename p) lines 0 := by
  have h := processLines_logs vl j (dirname p) (basename p) lines 0 db FileAcc.init
  rw [show FileAcc.init.log_batch = [] from rfl, List.append_nil] at h
  simp only [process_log_file]
  split
  · simpa [flushBatch] using h
  · next hne =>
    simp only [ne_eq, Decidable.not_not] at hne
    rw [hne, List.append_nil] at h
    exact h

/-! ## Frame lemmas: what the write path does to ledger and jobs -/

theorem ledgerOf_append_other (md : List (String × String × String))
    (row : String × String × String) (j : String)
    (h : row.2.1 ≠ "processed_file") :
    ledgerOf (md ++ [row]) j = ledgerOf md j := by
  simp [ledgerOf, List.filter_append, h]

theorem ledgerOf_append_marker (md : List (String × String × String))
    (job p j : String) :
    ledgerOf (md ++ [(job, "processed_file", p)]) j
      = ledgerOf md j ++ (if j = job then [p] else []) := by
  by_cases h : j = job
  · simp [ledgerOf, List.filter_append, h]
  · have h' : ¬ job = j := fun he => h he.symm
    simp [ledgerOf, List.filter_append, h, h']

theorem ledgerOf_insertOrIgnore (md : List (String × String × String))
    (row : String × String × String) (j : String)
    (h : row.2.1 ≠ "processed_file") :
    ledgerOf (insertOrIgnore md row) j = ledgerOf md j := by
  unfold insertOrIgnore
  split
  · rfl
  · exact ledgerOf_append_other md row j h

theorem ledgerOf_foldl_insert (j2 ty : String) (hty : ty ≠ "processed_file")
    (names : List String) (md : List (String × String × String)) (j : String) :
    ledgerOf (names.foldl (fun m c => insertOrIgnore m (j2, ty, c)) md) j
      = ledgerOf md j := by
  induction names generalizing md with
  | nil => rfl
  | cons c rest ih =>
    simp only [List.foldl_cons]
    rw [ih, ledgerOf_insertOrIgnore _ _ _ hty]

theorem flushBatch_ledger (j : String) (db : DB) (acc : FileAcc) (j2 : String) :
    ledger (flushBatch j db acc).1 j2 = ledger db j2
    ∧ ledger (flushBatch j db acc).2 j2 = ledger db j2 := by
  constructor
  · rfl
  · show ledgerOf _ _ = _
    simp only [flushBatch]
    rw [ledgerOf_foldl_insert j "service" (by decide) _ _ j2,
      ledgerOf_foldl_insert j "class" (by decide) _ _ j2]
    rfl

theorem flushBatch_jobs (j : String) (db : DB) (acc : FileAcc) :
    (flushBatch j db acc).1.jobs = db.jobs
    ∧ (flushBatch j db acc).2.jobs = db.jobs := ⟨rfl, rfl⟩

theorem processLines_ledger (vl : List String) (j fo fn : String)
    (lines : List Line) (idx : Nat) (db : DB) (acc : FileAcc) (j2 : String) :
    ledger (processLines vl j fo fn lines idx db acc).2.1 j2 = ledger db j2
    ∧ ∀ d ∈ (processLines vl j fo fn lines idx db acc).1,
        ledger d j2 = ledger db j2 := by
  induction lines generalizing idx db acc with
  | nil => exact ⟨rfl, by simp [processLines]⟩
  | cons line rest ih =>
    simp only [processLines]
    split
    · obtain ⟨hf1, hf2⟩ := flushBatch_ledger j db
        (processLine vl j fo fn idx line acc) j2
      obtain ⟨g1, g2⟩ := ih (idx + 1)
        (flushBatch j db (processLine vl j fo fn idx line acc)).2
        (resetAcc (processLine vl j fo fn idx line acc))
      refine ⟨by rw [g1, hf2], ?_⟩
      intro d hd
      simp only [List.mem_cons] at hd
      rcases hd with rfl | rfl | hd
      · exact hf1
      · exact hf2
      · rw [g2 d hd, hf2]
    · exact ih (idx + 1) db _

theorem processLines_jobs (vl : List String) (j fo fn : String)
    (lines : List Line) (idx : Nat) (db : DB) (acc : FileAcc) :
    (processLines vl j fo fn lines idx db acc).2.1.jobs = db.jobs
    ∧ ∀ d ∈ (processLines vl j fo fn lines idx db acc).1, d.jobs = db.jobs := by
  induction lines generalizing idx db acc with
  | nil => exact ⟨rfl, by simp [processLines]⟩
  | cons line rest ih =>
    simp only [processLines]
    split
    · obtain ⟨g1, g2⟩ := ih (idx + 1)
        (flushBatch j db (processLine vl j fo fn idx line acc)).2
        (resetAcc (processLine vl j fo fn idx line acc))
      refine ⟨g1, ?_⟩
      intro d hd
      simp only [List.mem_cons] at hd
      rcases hd with rfl | rfl | hd
      · rfl
      · rfl
      · exact g2 d hd
    · exact ih (idx + 1) db _

theorem process_log_file_ledger (vl : List String) (job p : String)
    (lines : List Line) (db : DB) (j2 : String) :
    ledger (process_log_file vl job p lines db).db j2
      = ledger db j2 ++ (if j2 = job then [p] else []) := by
  obtain ⟨h1, _⟩ := processLines_ledger vl job (dirname p) (basename p) lines 0
    db FileAcc.init j2
  simp only [process_log_file]
  split
  · obtain ⟨_, hf2⟩ := flushBatch_ledger job
      (processLines vl job (dirname p) (basename p) lines 0 db FileAcc.init).2.1
      (processLines vl job (dirname p) (basename p) lines 0 db FileAcc.init).2.2 j2
    show ledgerOf (_ ++ [(job, "processed_file", p)]) j2 = _
    rw [ledgerOf_append_marker]
    show ledger (flushBatch job _ _).2 j2 ++ _ = _
    rw [hf2, h1]
  · show ledgerOf (_ ++ [(job, "processed_file", p)]) j2 = _
    rw [ledgerOf_append_marker]
    show ledger (processLines vl job (dirname p) (basename p) lines 0 db
      FileAcc.init).2.1 j2 ++ _ = _
    rw [h1]

theorem process_log_file_jobs (vl : List String) (job p : String)
    (lines : List Line) (db : DB) :
    (process_log_file vl job p lines db).db.jobs = db.jobs := by
  obtain ⟨h1, _⟩ := processLines_jobs vl job (dirname p) (basename p) lines 0
    db FileAcc.init
  simp only [process_log_file]
  split
  · exact h1
  · exact h1

/-! ## Row-level facts -/

theorem fileRows_fields (vl : List String) (j fo fn : String) (lines : List Line)
    (idx : Nat) : ∀ r ∈ fileRows vl j fo fn lines idx,
    r.job_id = j ∧ r.folder = fo ∧ r.file_name = fn := by
  induction lines generalizing idx with
  | nil => simp [fileRows]
  | cons line rest ih =>
    cases line with
    | none => simpa [fileRows] using ih (idx + 1)
    | some e =>
      intro r hr
      simp only [fileRows, List.mem_cons] at hr
      rcases hr with rfl | hr
      · exact ⟨rfl, rfl, rfl⟩
      · exact ih (idx + 1) r hr

theorem extractLevel_ne_empty (vl : List String) (hvl : "" ∉ vl) (e : LogEntry) :
    extractLevel vl e ≠ "" := by
  have hrw : extractLevel vl e
      = if e.level.getD "UNKNOWN" ∈ vl then e.level.getD "UNKNOWN" else "UNKNOWN" := rfl
  rw [hrw]
  by_cases h : e.level.getD "UNKNOWN" ∈ vl
  · rw [if_pos h]; intro he; rw [he] at h; exact hvl h
  · rw [if_neg h]; decide

theorem fileRows_level_ne (vl : List String) (hvl : "" ∉ vl)
    (j fo fn : String) (lines : List Line) (idx : Nat) :
    ∀ r ∈ fileRows vl j fo fn lines idx, r.level ≠ "" := by
  induction lines generalizing idx with
  | nil => simp [fileRows]
  | cons line rest ih =>
    cases line with
    | none => simpa [fileRows] using ih (idx + 1)
    | some e =>
      intro r hr
      simp only [fileRows, List.mem_cons] at hr
      rcases hr with rfl | hr
      · exact extractLevel_ne_empty vl hvl e
      · exact ih (idx + 1) r hr

/-! ## `updateJobs` frame lemmas -/

theorem updateJobs_logs (db : DB) (j : String) (f : JobsRow → JobsRow) :
    (updateJobs db j f).logs = db.logs := rfl

theorem updateJobs_sums (db : DB) (j : String) (f : JobsRow → JobsRow) :
    (updateJobs db j f).sums = db.sums := rfl

theorem updateJobs_ledger (db : DB) (j : String) (f : JobsRow → JobsRow)
    (j2 : String) : ledger (updateJobs db j f) j2 = ledger db j2 := rfl

theorem lookup_map_update (l : List (String × JobsRow)) (j : String)
    (f : JobsRow → JobsRow) :
    (l.map (fun jr => if jr.1 = j then (jr.1, f jr.2) else jr)).lookup j
      = (l.lookup j).map f := by
  induction l with
  | nil => rfl
  | cons hd tl ih =>
    obtain ⟨k, v⟩ := hd
    rw [List.map_cons]
    by_cases h : k = j
    · subst h
      have hif : (if (k, v).1 = k then ((k, v).1, f (k, v).2) else (k, v)) = (k, f v) := by
        simp
      rw [hif]
      simp [List.lookup, ih]
    · have hif : (if (k, v).1 = j then ((k, v).1, f (k, v).2) else (k, v)) = (k, v) := by
        simp [h]
      rw [hif]
      have h' : (j == k) = false := by
        simp only [beq_eq_false_iff_ne, ne_eq]
        exact fun he => h he.symm
      simp [List.lookup, h', ih]

theorem lookup_updateJobs (db : DB) (j : String) (f : JobsRow → JobsRow) :
    (updateJobs db j f).jobs.lookup j = (db.jobs.lookup j).map f :=
  lookup_map_update db.jobs j f

theorem jobsRow_updateJobs (db : DB) (j : String) (f : JobsRow → JobsRow)
    (h : (db.jobs.lookup j).isSome) :
    jobsRow (updateJobs db j f) j = f (jobsRow db j) := by
  unfold jobsRow
  rw [lookup_updateJobs]
  rcases hl : db.jobs.lookup j with _ | row
  · rw [hl] at h; simp at h
  · rfl

theorem isSome_lookup_updateJobs (db : DB) (j : String) (f : JobsRow → JobsRow) :
    ((updateJobs db j f).jobs.lookup j).isSome = (db.jobs.lookup j).isSome := by
  rw [lookup_updateJobs]
  rcases db.jobs.lookup j <;> rfl

/-! ## Rows attributable to one file -/

/-- The `logs` rows a given job wrote from a given file path (rows
carry the path split into `folder`/`file_name`). -/
def rowsFor (db : DB) (job p : String) : List RawRow :=
  db.logs.filter
    (fun r => r.job_id = job ∧ r.folder = dirname p ∧ r.file_name = basename p)

/-- The rows the whole of file `p` contributes for job `job`. -/
def expectedRows (vl : List String) (job p : String) (lines : List Line) :
    List RawRow :=
  fileRows vl job (dirname p) (basename p) lines 0

theorem rowsFor_process_log_file_self (vl : List String) (job p : String)
    (lines : List Line) (db : DB) :
    rowsFor (process_log_file vl job p lines db).db job p
      = rowsFor db job p ++ expectedRows vl job p lines := by
  unfold rowsFor expectedRows
  rw [process_log_file_logs, List.filter_append]
  congr 1
  rw [List.filter_eq_self]
  intro r hr
  obtain ⟨h1, h2, h3⟩ := fileRows_fields vl job (dirname p) (basename p) lines 0 r hr
  simp [h1, h2, h3]

theorem rowsFor_process_log_file_other (vl : List String) (job job2 p q : String)
    (lines : List Line) (db : DB)
    (h : ¬ (job2 = job ∧ dirname q = dirname p ∧ basename q = basename p)) :
    rowsFor (process_log_file vl job p lines db).db job2 q = rowsFor db job2 q := by
  unfold rowsFor
  rw [process_log_file_logs, List.filter_append]
  have : (fileRows vl job (dirname p) (basename p) lines 0).filter
      (fun r => r.job_id = job2 ∧ r.folder = dirname q ∧ r.file_name = basename q)
      = [] := by
    rw [List.filter_eq_nil_iff]
    intro r hr
    obtain ⟨h1, h2, h3⟩ := fileRows_fields vl job (dirname p) (basename p) lines 0 r hr
    simp only [h1, h2, h3, decide_eq_true_eq, not_and]
    intro hj hfo hfn
    exact h ⟨hj.symm, hfo.symm, hfn.symm⟩
  rw [this, List.append_nil]

/-! ## The file loop invariant -/

/-- File-consistency of the durable store for one enumerated file: the
file is either fully committed (its marker is in the ledger and its
rows are exactly its full contribution) or entirely absent (no marker,
no rows).  A file whose read fails can only be absent. -/
def fileFullOrAbsent (vl : List String) (db : DB) (job : String)
    (f : String × Except Unit (List Line)) : Prop :=
  match f.2 with
  | .ok lines =>
    (f.1 ∈ ledger db job ∧ rowsFor db job f.1 = expectedRows vl job f.1 lines)
    ∨ (f.1 ∉ ledger db job ∧ rowsFor db job f.1 = [])
  | .error _ => f.1 ∉ ledger db job ∧ rowsFor db job f.1 = []

theorem absent_fullOrAbsent (vl : List String) (db : DB) (job : String)
    (f : String × Except Unit (List Line))
    (h1 : f.1 ∉ ledger db job) (h2 : rowsFor db job f.1 = []) :
    fileFullOrAbsent vl db job f := by
  unfold fileFullOrAbsent
  rcases f.2 with _ | lines
  · exact ⟨h1, h2⟩
  · exact Or.inr ⟨h1, h2⟩

/-- What the file loop guarantees, from any of its exits. -/
structure LoopSpec (vl : List String) (job : String) (mem : JobsRow)
    (rem : List (String × Except Unit (List Line))) (db : DB)
    (r : JobResult) : Prop where
  count : (jobsRow r.db job).files_processed = (ledger r.db job).length
  files : ∀ f ∈ rem, fileFullOrAbsent vl r.db job f
  ledgerFrame : ∀ q, q ∉ rem.map Prod.fst →
      (q ∈ ledger r.db job ↔ q ∈ ledger db job)
  rowsFrame : ∀ q,
      (dirname q, basename q) ∉ rem.map (fun f => (dirname f.1, basename f.1)) →
      rowsFor r.db job q = rowsFor db job q
  lookupSome : (r.db.jobs.lookup job).isSome
  pausedStatus : r.outcome = .paused → (jobsRow r.db job).status = "PAUSED"
  erroredStatus : r.outcome = .errored → (jobsRow r.db job).status = "ERROR"
      ∧ (jobsRow r.db job).total_files = mem.total_files
  completedStatus : r.outcome = .completed → (jobsRow r.db job).status = "COMPLETED"
      ∧ (jobsRow r.db job).total_files = mem.total_files

theorem processFiles_spec (vl : List String) (job : String)
    (pausedAt : Nat → Bool) (rem : List (String × Except Unit (List Line)))
    (idx : Nat) (db : DB) (mem : JobsRow)
    (hpairs : (rem.map (fun f => (dirname f.1, basename f.1))).Nodup)
    (hmem : mem.files_processed = (ledger db job).length)
    (habsent : ∀ f ∈ rem, f.1 ∉ ledger db job ∧ rowsFor db job f.1 = [])
    (hjob : (db.jobs.lookup job).isSome) :
    LoopSpec vl job mem rem db (processFiles vl job pausedAt [] rem idx db mem) := by
  induction rem generalizing idx db mem with
  | nil =>
    have hstep : processFiles vl job pausedAt [] [] idx db mem
        = ⟨updateJobs db job (fun j =>
            { j with status := "COMPLETED", files_processed := mem.files_processed,
                     total_files := mem.total_files }),
           { mem with status := "COMPLETED" }, .completed⟩ := rfl
    rw [hstep]
    refine ⟨?_, by simp, fun q _ => Iff.rfl, fun q _ => rfl, ?_, ?_, ?_, ?_⟩
    · show (jobsRow (updateJobs db job _) job).files_processed = _
      rw [jobsRow_updateJobs db job _ hjob]
      exact hmem
    · show ((updateJobs db job _).jobs.lookup job).isSome = true
      rw [isSome_lookup_updateJobs]
      exact hjob
    · intro h; exact JobOutcome.noConfusion h
    · intro h; exact JobOutcome.noConfusion h
    · intro _
      show (jobsRow (updateJobs db job _) job).status = "COMPLETED"
          ∧ (jobsRow (updateJobs db job _) job).total_files = mem.total_files
      rw [jobsRow_updateJobs db job _ hjob]
      exact ⟨rfl, rfl⟩
  | cons hd rest ih =>
    obtain ⟨p, content⟩ := hd
    by_cases hpause : pausedAt idx = true
    · have hstep : processFiles vl job pausedAt [] ((p, content) :: rest) idx db mem
          = ⟨updateJobs db job (fun j =>
              { j with status := "PAUSED", files_processed := mem.files_processed }),
             { mem with status := "PAUSED" }, .paused⟩ := by
        simp only [processFiles]
        rw [if_neg (List.not_mem_nil p), if_pos hpause]
      rw [hstep]
      refine ⟨?_, ?_, fun q _ => Iff.rfl, fun q _ => rfl, ?_, ?_, ?_, ?_⟩
      · show (jobsRow (updateJobs db job _) job).files_processed = _
        rw [jobsRow_updateJobs db job _ hjob]
        exact hmem
      · intro f hf
        exact absent_fullOrAbsent vl _ job f (habsent f hf).1 (habsent f hf).2
      · show ((updateJobs db job _).jobs.lookup job).isSome = true
        rw [isSome_lookup_updateJobs]
        exact hjob
      · intro _
        show (jobsRow (updateJobs db job _) job).status = "PAUSED"
        rw [jobsRow_updateJobs db job _ hjob]
      · intro h; exact JobOutcome.noConfusion h
      · intro h; exact JobOutcome.noConfusion h
    · rcases content with _ | lines
      · -- the file read raises: the generic handler freezes the counters
        have hstep : processFiles vl job pausedAt [] ((p, .error ()) :: rest) idx db mem
            = ⟨updateJobs db job (fun j =>
                { j with status := "ERROR"
                         files_processed := mem.files_processed
                         total_files := mem.total_files }),
               { mem with status := "ERROR" }, .errored⟩ := by
          simp only [processFiles]
          rw [if_neg (List.not_mem_nil p), if_neg hpause]
        rw [hstep]
        refine ⟨?_, ?_, fun q _ => Iff.rfl, fun q _ => rfl, ?_, ?_, ?_, ?_⟩
        · show (jobsRow (updateJobs db job _) job).files_processed = _
          rw [jobsRow_updateJobs db job _ hjob]
          exact hmem
        · intro f hf
          exact absent_fullOrAbsent vl _ job f (habsent f hf).1 (habsent f hf).2
        · show ((updateJobs db job _).jobs.lookup job).isSome = true
          rw [isSome_lookup_updateJobs]
          exact hjob
        · intro h; exact JobOutcome.noConfusion h
        · intro _
          show (jobsRow (updateJobs db job _) job).status = "ERROR"
              ∧ (jobsRow (updateJobs db job _) job).total_files = mem.total_files
          rw [jobsRow_updateJobs db job _ hjob]
          exact ⟨rfl, rfl⟩
        · intro h; exact JobOutcome.noConfusion h
      · -- the file is processed whole, then the loop continues
        have hpairRest : ((dirname p, basename p)) ∉
            rest.map (fun f => (dirname f.1, basename f.1)) :=
          (List.nodup_cons.mp hpairs).1
        have hpathRest : ∀ f ∈ rest, f.1 ≠ p := by
          intro f hf he
          exact hpairRest (by
            rw [← he]
            exact List.mem_map_of_mem (fun f => (dirname f.1, basename f.1)) hf)
        have hstep : processFiles vl job pausedAt [] ((p, .ok lines) :: rest) idx db mem
            = processFiles vl job pausedAt [] rest (idx + 1)
                (updateJobs (process_log_file vl job p lines db).db job
                  (fun j => { j with files_processed := mem.files_processed + 1 }))
                { mem with files_processed := mem.files_processed + 1 } := by
          simp only [processFiles]
          rw [if_neg (List.not_mem_nil p), if_neg hpause]
        set fr := process_log_file vl job p lines db with hfr
        set mem' := { mem with files_processed := mem.files_processed + 1 } with hmemdef
        set db' := updateJobs fr.db job
          (fun j => { j with files_processed := mem.files_processed + 1 }) with hdb'
        have hledger' : ledger db' job = ledger db job ++ [p] := by
          rw [hdb', updateJobs_ledger, hfr, process_log_file_ledger, if_pos rfl]
        have hheadAbsent := habsent (p, .ok lines) (List.mem_cons_self _ _)
        have hrows' : rowsFor db' job p = expectedRows vl job p lines := by
          have heq : rowsFor db' job p = rowsFor fr.db job p := rfl
          rw [heq, hfr, rowsFor_process_log_file_self, hheadAbsent.2,
            List.nil_append]
        have hrowsOther : ∀ q, (dirname q, basename q) ≠ (dirname p, basename p) →
            rowsFor db' job q = rowsFor db job q := by
          intro q hq
          have heq : rowsFor db' job q = rowsFor fr.db job q := rfl
          rw [heq, hfr, rowsFor_process_log_file_other]
          intro ⟨_, h2, h3⟩
          exact hq (by rw [h2, h3])
        have ihSpec := ih (idx + 1) db' mem'
          (List.nodup_cons.mp hpairs).2
          (by
            show mem.files_processed + 1 = (ledger db' job).length
            rw [hledger', List.length_append, List.length_singleton, hmem])
          (by
            intro f hf
            refine ⟨?_, ?_⟩
            · rw [hledger']
              intro hmem2
              rcases List.mem_append.mp hmem2 with h | h
              · exact (habsent f (List.mem_cons_of_mem _ hf)).1 h
              · exact hpathRest f hf (List.mem_singleton.mp h)
            · rw [hrowsOther f.1 (by
                intro he
                exact hpairRest (by
                  rw [← he]
                  exact List.mem_map_of_mem (fun f => (dirname f.1, basename f.1)) hf))]
              exact (habsent f (List.mem_cons_of_mem _ hf)).2)
          (by rw [hdb', isSome_lookup_updateJobs, hfr, process_log_file_jobs]; exact hjob)
        rw [hstep]
        refine ⟨ihSpec.count, ?_, ?_, ?_, ihSpec.lookupSome, ihSpec.pausedStatus,
          fun h => ihSpec.erroredStatus h, fun h => ihSpec.completedStatus h⟩
        · intro f hf
          rcases List.mem_cons.mp hf with rfl | hf
          · show fileFullOrAbsent vl _ job (p, Except.ok lines)
            unfold fileFullOrAbsent
            refine Or.inl ⟨?_, ?_⟩
            · have hfr1 := ihSpec.ledgerFrame p (by
                intro hmem2
                obtain ⟨f, hf, he⟩ := List.mem_map.mp hmem2
                exact hpathRest f hf he)
              rw [hfr1, hledger']
              exact List.mem_append_right _ (List.mem_singleton_self p)
            · rw [ihSpec.rowsFrame p hpairRest]
              exact hrows'
          · exact ihSpec.files f hf
        · intro q hq
          have hq1 : q ∉ rest.map Prod.fst := by
            intro h
            exact hq (List.mem_cons_of_mem _ h)
          have hq2 : q ≠ p := by
            intro he
            exact hq (by rw [he]; exact List.mem_cons_self _ _)
          rw [ihSpec.ledgerFrame q hq1, hledger']
          constructor
          · intro h
            rcases List.mem_append.mp h with h | h
            · exact h
            · exact absurd (List.mem_singleton.mp h) hq2
          · exact fun h => List.mem_append_left _ h
        · intro q hq
          have hq1 : (dirname q, basename q) ∉
              rest.map (fun f => (dirname f.1, basename f.1)) := by
            intro h
            exact hq (List.mem_cons_of_mem _ h)
          have hq2 : (dirname q, basename q) ≠ (dirname p, basename p) := by
            intro he
            exact hq (by rw [he]; exact List.mem_cons_self _ _)
          rw [ihSpec.rowsFrame q hq1]
          exact hrowsOther q hq2

/-! ## Splitting facts for the class field -/

theorem breakAtDot_spec (cs : List Char) :
    ∀ a b, breakAtDot cs = some (a, b) → cs = a ++ '.' :: b ∧ '.' ∉ a := by
  induction cs with
  | nil => intro a b h; simp [breakAtDot] at h
  | cons c rest ih =>
    intro a b h
    by_cases hc : c = '.'
    · subst hc
      rw [breakAtDot, if_pos rfl] at h
      simp only [Option.some_inj, Prod.mk.injEq] at h
      obtain ⟨rfl, rfl⟩ := h
      exact ⟨rfl, by simp⟩
    · rw [breakAtDot, if_neg hc] at h
      rcases hr : breakAtDot rest with _ | ⟨x, y⟩ <;> rw [hr] at h
      · simp at h
      · simp only [Option.some_inj, Prod.mk.injEq] at h
        obtain ⟨rfl, rfl⟩ := h
        obtain ⟨g1, g2⟩ := ih x y hr
        refine ⟨by rw [List.cons_append, ← g1], ?_⟩
        intro hmem
        rcases List.mem_cons.mp hmem with he | he
        · exact hc he.symm
        · exact g2 he

/-! ## The hour-stepping loop -/

theorem genHours_eq_range (b a : Nat) (h : a ≤ b) :
    genHours b a = (List.range (b - a + 1)).map (fun i => a + i) := by
  have key : ∀ n a, b - a = n → a ≤ b →
      genHours b a = (List.range (n + 1)).map (fun i => a + i) := by
    intro n
    induction n with
    | zero =>
      intro a hn ha
      have hab : a = b := by omega
      subst hab
      rw [genHours, if_pos le_rfl, genHours, if_neg (by omega)]
      simp [List.range_succ]
    | succ n ihn =>
      intro a hn ha
      rw [genHours, if_pos ha, List.range_succ_eq_map, List.map_cons, List.map_map,
        ihn (a + 1) (by omega) (by omega), Nat.add_zero]
      congr 1
      apply List.map_congr_left
      intro i _
      simp only [Function.comp_apply]
      omega
  exact key (b - a) a rfl h

/-- The value-aware backtracking of `strptime('%Y%m%d-%H')`, checked
against CPython on unpadded and invalid inputs: `2024131-05` is
2024-01-31 hour 5 (month backtracks to the one-digit alternative),
`2024930-00` is Sep 30, `2024229-07` is Feb 29 of a leap year,
`2024120-05` is Jan 20 (day `0` fails, month retries one digit),
while leftover input, a short date, Feb 29 of a non-leap year and
year 0 all raise. -/
theorem parseYmdH_backtracks :
    parseYmdH "2024131-05" = some (absHour 2024 1 31 5)
    ∧ parseYmdH "2024930-00" = some (absHour 2024 9 30 0)
    ∧ parseYmdH "2024229-07" = some (absHour 2024 2 29 7)
    ∧ parseYmdH "2024120-05" = some (absHour 2024 1 20 5)
    ∧ parseYmdH "2024111-055" = none
    ∧ parseYmdH "20241-05" = none
    ∧ parseYmdH "2023229-07" = none
    ∧ parseYmdH "0000101-05" = none := by
  decide

/-- C9: For every customer folder and every pair of parseable
`YYYYMMDD-HH` bounds with start ≤ end, `generate_s3_paths` returns
exactly one `"{customer_folder}/{YYYYMMDD-HH}/"` per hour of the closed
interval, in ascending hour order with step one hour, so the list
length is the hour difference plus one; when start > end, or either
datetime fails to parse, it raises an HTTP 400 (invalid range/format)
and no path list is produced. -/
theorem s3_paths_per_hour (folder s e : String) :
    (∀ a b, parseYmdH s = some a → parseYmdH e = some b → a ≤ b →
      generate_s3_paths folder s e
        = .ok ((List.range (b - a + 1)).map
            (fun i => folder ++ "/" ++ formatYmdH (a + i) ++ "/"))
      ∧ ((List.range (b - a + 1)).map
            (fun i => folder ++ "/" ++ formatYmdH (a + i) ++ "/")).length
          = b - a + 1)
    ∧ (∀ a b, parseYmdH s = some a → parseYmdH e = some b → b < a →
      generate_s3_paths folder s e = .httpError 400)
    ∧ (parseYmdH s = none ∨ parseYmdH e = none →
      generate_s3_paths folder s e = .httpError 400) := by
  refine ⟨?_, ?_, ?_⟩
  · intro a b ha hb hab
    constructor
    · simp only [generate_s3_paths, ha, hb]
      rw [if_neg (by omega), genHours_eq_range b a hab, List.map_map]
      rfl
    · simp
  · intro a b ha hb hba
    simp only [generate_s3_paths, ha, hb]
    rw [if_pos (by omega)]
  · intro h
    rcases hps : parseYmdH s with _ | a <;> rcases hpe : parseYmdH e with _ | b <;>
      simp only [generate_s3_paths, hps, hpe]
    rcases h with h | h
    · rw [hps] at h; exact absurd h (by simp)
    · rw [hpe] at h; exact absurd h (by simp)

/-- Witness for C9 at a concrete month boundary whose start needs the
backtracking `%m%d` split (`2024131-22` is 2024-01-31 hour 22); the
emitted paths are canonical `strftime` spellings. -/
theorem s3_paths_per_hour_witness :
    generate_s3_paths "cust" "2024131-22" "2024201-00"
      = .ok ["cust/20240131-22/", "cust/20240131-23/", "cust/20240201-00/"] := by
  have h := (s3_paths_per_hour "cust" "2024131-22" "2024201-00").1
    17733982 17733984 (by decide) (by decide) (by decide)
  rw [h.1]
  decide

/-- C7: Parsing a raw log line extracts a level that defaults to
`UNKNOWN` when the `level` key is absent or its value is not in the
configured level set; a class field containing `'.'` is split at the
first `'.'` into service (the part before, which itself contains no
`'.'`) and class (the rest); when the class field is absent or
malformed (empty or without a `'.'`) both service and class are
`Unknown` — in particular the line
`{"level":"INFO","log":"no class field"}` yields class = `Unknown`,
service = `Unknown`. -/
theorem parse_level_class_service (validLevels : List String) (e : LogEntry) :
    (e.level = none → extractLevel validLevels e = "UNKNOWN")
    ∧ (∀ s, e.level = some s → s ∉ validLevels →
        extractLevel validLevels e = "UNKNOWN")
    ∧ (∀ s, e.level = some s → s ∈ validLevels →
        extractLevel validLevels e = s)
    ∧ (∀ c, e.cls = some c → c ≠ "" → hasDot c = true →
        (extractClassService e).2.1 = beforeDot c
        ∧ (extractClassService e).1 = afterDot c
        ∧ c.toList = (beforeDot c).toList ++ '.' :: (afterDot c).toList
        ∧ '.' ∉ (beforeDot c).toList)
    ∧ ((e.cls = none ∨ (∀ c, e.cls = some c → c = "" ∨ hasDot c = false)) →
        extractClassService e = ("Unknown", "Unknown", true))
    ∧ extractClassService ⟨none, some "INFO", none, some "no class field"⟩
        = ("Unknown", "Unknown", true) := by
  refine ⟨?_, ?_, ?_, ?_, ?_, rfl⟩
  · intro h
    have : extractLevel validLevels e
        = if e.level.getD "UNKNOWN" ∈ validLevels then e.level.getD "UNKNOWN"
          else "UNKNOWN" := rfl
    rw [this, h]
    split
    · rfl
    · rfl
  · intro s hs hmem
    have : extractLevel validLevels e
        = if e.level.getD "UNKNOWN" ∈ validLevels then e.level.getD "UNKNOWN"
          else "UNKNOWN" := rfl
    rw [this, hs]
    exact if_neg (by simpa using hmem)
  · intro s hs hmem
    have : extractLevel validLevels e
        = if e.level.getD "UNKNOWN" ∈ validLevels then e.level.getD "UNKNOWN"
          else "UNKNOWN" := rfl
    rw [this, hs]
    exact if_pos (by simpa using hmem)
  · intro c hc hne hdot
    have hdot' : (breakAtDot c.data).isSome = true := hdot
    rcases hbr : breakAtDot c.data with _ | ⟨x, y⟩
    · rw [hbr] at hdot'; exact absurd hdot' (by simp)
    · obtain ⟨hsplit, hnd⟩ := breakAtDot_spec c.data x y hbr
      have hbefore : beforeDot c = String.mk x := by
        simp only [beforeDot, String.toList, hbr]
      have hafter : afterDot c = String.mk y := by
        simp only [afterDot, String.toList, hbr]
      have hext : extractClassService e = (afterDot c, beforeDot c, false) := by
        simp only [extractClassService, hc]
        rw [if_pos ⟨hne, hdot⟩]
      rw [hext, hbefore, hafter]
      exact ⟨rfl, rfl, hsplit, hnd⟩
  · intro h
    rcases hc : e.cls with _ | c
    · simp only [extractClassService, hc]
    · simp only [extractClassService, hc]
      rcases h with h | h
      · rw [hc] at h; exact absurd h (by simp)
      · rcases h c hc with h | h
        · rw [if_neg (by simp [h])]
        · rw [if_neg (by simp [h])]

/-- Witness for C7 at a concrete entry with an out-of-set level and a
two-dot class field. -/
theorem parse_level_class_service_witness :
    extractLevel ["INFO"] ⟨none, some "TRACE", some "svcA.pkg.Cls", none⟩ = "UNKNOWN"
    ∧ (extractClassService ⟨none, some "TRACE", some "svcA.pkg.Cls", none⟩).2.1 = "svcA"
    ∧ (extractClassService ⟨none, some "TRACE", some "svcA.pkg.Cls", none⟩).1 = "pkg.Cls" := by
  obtain ⟨h1, h2, h3, h4, h5, h6⟩ :=
    parse_level_class_service ["INFO"] ⟨none, some "TRACE", some "svcA.pkg.Cls", none⟩
  obtain ⟨g1, g2, _, _⟩ := h4 "svcA.pkg.Cls" rfl (by decide) (by decide)
  exact ⟨h2 "TRACE" rfl (by decide), by rw [g1]; decide, by rw [g2]; decide⟩

/-- C10: a class field with an empty side of the first `'.'` (for
example `"svcA."`, giving class = `""`, or `".ClassX"`, giving
service = `""`) still produces a `logs` row, but the record is silently
omitted from every summary count whose key includes the empty field
(class-level and class-service for an empty class; service-level and
class-service for an empty service), while summaries whose key fields
are non-empty still count it; no error is raised and neither diagnostic
counter records the omission. -/
theorem empty_split_side_omitted :
    extractClassService ⟨none, some "INFO", some "svcA.", none⟩ = ("", "svcA", false)
    ∧ extractClassService ⟨none, some "INFO", some ".ClassX", none⟩ = ("ClassX", "", false)
    ∧ (process_log_file ["ERROR", "WARN", "INFO", "DEBUG"] "j" "logs/a.gz"
        [some ⟨some "2024-01-01 10:00:00", some "INFO", some "svcA.", some "m"⟩]
        DB.empty).db.logs.length = 1
    ∧ totalCount (process_log_file ["ERROR", "WARN", "INFO", "DEBUG"] "j" "logs/a.gz"
        [some ⟨some "2024-01-01 10:00:00", some "INFO", some "svcA.", some "m"⟩]
        DB.empty).db.sums.class_level_counts = 0
    ∧ totalCount (process_log_file ["ERROR", "WARN", "INFO", "DEBUG"] "j" "logs/a.gz"
        [some ⟨some "2024-01-01 10:00:00", some "INFO", some "svcA.", some "m"⟩]
        DB.empty).db.sums.class_service_counts = 0
    ∧ totalCount (process_log_file ["ERROR", "WARN", "INFO", "DEBUG"] "j" "logs/a.gz"
        [some ⟨some "2024-01-01 10:00:00", some "INFO", some "svcA.", some "m"⟩]
        DB.empty).db.sums.service_level_counts = 1
    ∧ totalCount (process_log_file ["ERROR", "WARN", "INFO", "DEBUG"] "j" "logs/a.gz"
        [some ⟨some "2024-01-01 10:00:00", some "INFO", some "svcA.", some "m"⟩]
        DB.empty).db.sums.timeline_counts = 1
    ∧ (process_log_file ["ERROR", "WARN", "INFO", "DEBUG"] "j" "logs/a.gz"
        [some ⟨some "2024-01-01 10:00:00", some "INFO", some "svcA.", some "m"⟩]
        DB.empty).missing_class_count = 0
    ∧ (process_log_file ["ERROR", "WARN", "INFO", "DEBUG"] "j" "logs/a.gz"
        [some ⟨some "2024-01-01 10:00:00", some "INFO", some "svcA.", some "m"⟩]
        DB.empty).invalid_timestamp_count = 0
    ∧ (process_log_file ["ERROR", "WARN", "INFO", "DEBUG"] "j" "logs/b.gz"
        [some ⟨some "2024-01-01 10:00:00", some "INFO", some ".ClassX", some "m"⟩]
        DB.empty).db.logs.length = 1
    ∧ totalCount (process_log_file ["ERROR", "WARN", "INFO", "DEBUG"] "j" "logs/b.gz"
        [some ⟨some "2024-01-01 10:00:00", some "INFO", some ".ClassX", some "m"⟩]
        DB.empty).db.sums.service_level_counts = 0
    ∧ totalCount (process_log_file ["ERROR", "WARN", "INFO", "DEBUG"] "j" "logs/b.gz"
        [some ⟨some "2024-01-01 10:00:00", some "INFO", some ".ClassX", some "m"⟩]
        DB.empty).db.sums.class_service_counts = 0
    ∧ totalCount (process_log_file ["ERROR", "WARN", "INFO", "DEBUG"] "j" "logs/b.gz"
        [some ⟨some "2024-01-01 10:00:00", some "INFO", some ".ClassX", some "m"⟩]
        DB.empty).db.sums.class_level_counts = 1 := by
  decide

/-! ## Diagnostic counter characterization -/

/-- How many decoded lines of a file have a missing/malformed class. -/
def countMissing (lines : List Line) : Nat :=
  lines.countP (fun l => match l with
    | some e => (extractClassService e).2.2
    | none => false)

/-- How many decoded lines of a file have a non-empty timestamp that
fails all three formats. -/
def countInvalidTs (lines : List Line) : Nat :=
  lines.countP (fun l => match l with
    | some e => decide (e.logtime.getD "" ≠ "")
        && (parseTimestamp (e.logtime.getD "")).isNone
    | none => false)

theorem processLine_counters (vl : List String) (j fo fn : String) (i : Nat)
    (line : Line) (acc : FileAcc) :
    (processLine vl j fo fn i line acc).missing_class_count
      = acc.missing_class_count
        + (if (match line with
            | some e => (extractClassService e).2.2
            | none => false) then 1 else 0)
    ∧ (processLine vl j fo fn i line acc).invalid_timestamp_count
      = acc.invalid_timestamp_count
        + (if (match line with
            | some e => decide (e.logtime.getD "" ≠ "")
                && (parseTimestamp (e.logtime.getD "")).isNone
            | none => false) then 1 else 0) := by
  cases line with
  | none => simp [processLine]
  | some e =>
    constructor
    · rfl
    · show acc.invalid_timestamp_count
          + (if e.logtime.getD "" ≠ "" ∧ (parseTimestamp (e.logtime.getD "")).isNone
             then 1 else 0) = _
      by_cases h1 : e.logtime.getD "" ≠ "" <;>
        rcases h2 : (parseTimestamp (e.logtime.getD "")).isNone <;>
          simp [h1, h2]

theorem processLines_counters (vl : List String) (j fo fn : String)
    (lines : List Line) (idx : Nat) (db : DB) (acc : FileAcc) :
    (processLines vl j fo fn lines idx db acc).2.2.missing_class_count
      = acc.missing_class_count + countMissing lines
    ∧ (processLines vl j fo fn lines idx db acc).2.2.invalid_timestamp_count
      = acc.invalid_timestamp_count + countInvalidTs lines := by
  induction lines generalizing idx db acc with
  | nil => simp [processLines, countMissing, countInvalidTs]
  | cons line rest ih =>
    obtain ⟨p1, p2⟩ := processLine_counters vl j fo fn idx line acc
    simp only [processLines]
    split
    · obtain ⟨g1, g2⟩ := ih (idx + 1)
        (flushBatch j db (processLine vl j fo fn idx line acc)).2
        (resetAcc (processLine vl j fo fn idx line acc))
      have r1 : (resetAcc (processLine vl j fo fn idx line acc)).missing_class_count
          = (processLine vl j fo fn idx line acc).missing_class_count := rfl
      have r2 : (resetAcc (processLine vl j fo fn idx line acc)).invalid_timestamp_count
          = (processLine vl j fo fn idx line acc).invalid_timestamp_count := rfl
      rw [g1, g2, r1, r2, p1, p2]
      simp only [countMissing, countInvalidTs, List.countP_cons]
      omega
    · obtain ⟨g1, g2⟩ := ih (idx + 1) db (processLine vl j fo fn idx line acc)
      rw [g1, g2, p1, p2]
      simp only [countMissing, countInvalidTs, List.countP_cons]
      omega

theorem process_log_file_counters (vl : List String) (job p : String)
    (lines : List Line) (db : DB) :
    (process_log_file vl job p lines db).missing_class_count = countMissing lines
    ∧ (process_log_file vl job p lines db).invalid_timestamp_count
        = countInvalidTs lines := by
  obtain ⟨h1, h2⟩ := processLines_counters vl job (dirname p) (basename p)
    lines 0 db FileAcc.init
  have e1 : (process_log_file vl job p lines db).missing_class_count
      = (processLines vl job (dirname p) (basename p) lines 0 db
          FileAcc.init).2.2.missing_class_count := by
    simp only [process_log_file]
  have e2 : (process_log_file vl job p lines db).invalid_timestamp_count
      = (processLines vl job (dirname p) (basename p) lines 0 db
          FileAcc.init).2.2.invalid_timestamp_count := by
    simp only [process_log_file]
  rw [e1, e2, h1, h2]
  exact ⟨Nat.zero_add _, Nat.zero_add _⟩

/-- C8 counterexample: a file whose only line is invalid JSON ends in a
state identical to processing the empty file — in particular neither
diagnostic counter records the malformed line (the claim's "counted" is
false), while the line is indeed skipped, processing does not abort,
and the file is still marked processed. -/
theorem malformed_line_no_trace :
    process_log_file ["ERROR", "WARN", "INFO", "DEBUG"] "j" "logs/a.gz" [none] DB.empty
      = process_log_file ["ERROR", "WARN", "INFO", "DEBUG"] "j" "logs/a.gz" [] DB.empty
    ∧ (process_log_file ["ERROR", "WARN", "INFO", "DEBUG"] "j" "logs/a.gz" [none]
        DB.empty).missing_class_count = 0
    ∧ (process_log_file ["ERROR", "WARN", "INFO", "DEBUG"] "j" "logs/a.gz" [none]
        DB.empty).invalid_timestamp_count = 0
    ∧ ("j", "processed_file", "logs/a.gz")
        ∈ (process_log_file ["ERROR", "WARN", "INFO", "DEBUG"] "j" "logs/a.gz" [none]
            DB.empty).db.job_metadata
    ∧ (process_log_file ["ERROR", "WARN", "INFO", "DEBUG"] "j" "logs/a.gz" [none]
        DB.empty).db.logs = [] := by
  decide

/-- C8 amended: for every input file, a line that is not valid JSON is
skipped (it yields no raw row, and later rows keep their own line
indices) and logged, but it is not counted by any error counter; it
never aborts processing of the remaining lines, the file, or the job
(processing always completes and writes the file's marker), and the
file is still recorded as processed. -/
theorem malformed_line_skipped (vl : List String) (job p : String)
    (lines : List Line) (db : DB) :
    (process_log_file vl job p (none :: lines) db).db.logs
        = db.logs ++ fileRows vl job (dirname p) (basename p) lines 1
    ∧ (process_log_file vl job p (none :: lines) db).missing_class_count
        = countMissing lines
    ∧ (process_log_file vl job p (none :: lines) db).invalid_timestamp_count
        = countInvalidTs lines
    ∧ p ∈ ledger (process_log_file vl job p (none :: lines) db).db job := by
  obtain ⟨c1, c2⟩ := process_log_file_counters vl job p (none :: lines) db
  refine ⟨?_, ?_, ?_, ?_⟩
  · rw [process_log_file_logs]
    rfl
  · rw [c1]
    simp [countMissing, List.countP_cons]
  · rw [c2]
    simp [countInvalidTs, List.countP_cons]
  · rw [show ledger (process_log_file vl job p (none :: lines) db).db job
        = ledger db job ++ (if job = job then [p] else [])
        from process_log_file_ledger vl job p (none :: lines) db job,
      if_pos rfl]
    exact List.mem_append_right _ (List.mem_singleton_self p)

/-! ## Resume of a bucket-sourced job -/

/-- C6 counterexample: a bucket job started through `start_job` has its
`start_datetime`/`end_datetime` persisted in `job_metadata`, yet
resuming it while `PAUSED` fails all the same — the in-try HTTP 400 is
swallowed by `resume_job`'s own generic handler and surfaces as an
HTTP 500, the store is untouched, re-enumeration never happens, and
the in-memory status is left flipped to `RUNNING` — so "re-enumerates
using the stored parameters and continues, failing precisely when
those parameters were not persisted" is false. -/
theorem resume_with_persisted_params_fails :
    ("jobA", "start_datetime", "20240101-00")
        ∈ ((start_job_s3 "jobA" "custX" "20240101-00" "20240101-05"
            DB.empty).getD DB.empty).job_metadata
    ∧ ("jobA", "end_datetime", "20240101-05")
        ∈ ((start_job_s3 "jobA" "custX" "20240101-00" "20240101-05"
            DB.empty).getD DB.empty).job_metadata
    ∧ (resume_job "jobA" (some "PAUSED")
        ((start_job_s3 "jobA" "custX" "20240101-00" "20240101-05"
            DB.empty).getD DB.empty)).1 = .httpError 500
    ∧ (resume_job "jobA" (some "PAUSED")
        ((start_job_s3 "jobA" "custX" "20240101-00" "20240101-05"
            DB.empty).getD DB.empty)).2.1 = some "RUNNING"
    ∧ (resume_job "jobA" (some "PAUSED")
        ((start_job_s3 "jobA" "custX" "20240101-00" "20240101-05"
            DB.empty).getD DB.empty)).2.2
      = (start_job_s3 "jobA" "custX" "20240101-00" "20240101-05"
            DB.empty).getD DB.empty := by
  decide

/-- C6 amended: resuming a paused bucket-sourced job (stored
`folder_path` under `s3://k8-customer-logs/`) always fails, whether or
not the job's `start_datetime`/`end_datetime` were persisted with it —
the stored time-range metadata is never consulted and no
re-enumeration happens — but the caller sees HTTP 500, not the 400
configuration error: the `HTTPException(400)` raised for the bucket
path is caught by `resume_job`'s own `except Exception` and re-raised
as a 500, after the in-memory status was already flipped to `RUNNING`
(and is never reverted); the persistent store is unchanged. -/
theorem resume_bucket_surfaces_500 (job : String) (db : DB) (row : JobsRow)
    (hrow : db.jobs.lookup job = some row)
    (hs3 : strStarts row.folder_path "s3://k8-customer-logs/" = true) :
    resume_job job (some "PAUSED") db = (.httpError 500, some "RUNNING", db) := by
  simp [resume_job, hrow, hs3]

/-- Witness for the amended C6 on a concretely started bucket job. -/
theorem resume_bucket_surfaces_500_witness :
    resume_job "jobA" (some "PAUSED")
        ((start_job_s3 "jobA" "custX" "20240101-00" "20240101-05"
            DB.empty).getD DB.empty)
      = (.httpError 500, some "RUNNING",
          (start_job_s3 "jobA" "custX" "20240101-00" "20240101-05"
            DB.empty).getD DB.empty) :=
  resume_bucket_surfaces_500 "jobA" _
    ⟨"s3://k8-customer-logs/custX", "RUNNING", 0, 0⟩ (by decide) (by decide)

/-! ## Unfolding `process_job`'s top-level branching -/

theorem process_job_run (vl : List String) (job : String) (env : LocalEnv)
    (pausedAt : Nat → Bool) (db : DB) (hdir : env.isDir = true)
    (hne : env.files ≠ []) :
    process_job vl job env pausedAt db
      = processFiles vl job pausedAt ((ledger db job).dedup) env.files 0
          (updateJobs db job (fun j =>
            { j with status := "RUNNING", total_files := env.files.length,
                     files_processed := (ledger db job).dedup.length }))
          { (jobsRow db job) with
            status := "RUNNING"
            files_processed := (ledger db job).dedup.length
            total_files := env.files.length } := by
  simp only [process_job, hdir, not_true, if_false]
  rw [if_neg (fun h => hne (List.length_eq_zero.mp h))]

theorem process_job_invalid (vl : List String) (job : String) (env : LocalEnv)
    (pausedAt : Nat → Bool) (db : DB) (hdir : env.isDir = false) :
    (process_job vl job env pausedAt db).db
      = updateJobs db job (fun j =>
          { j with status := "ERROR", total_files := 0, files_processed := 0 })
    ∧ (process_job vl job env pausedAt db).outcome = .invalidSource := by
  constructor <;>
  · simp only [process_job, hdir]
    split
    · rfl
    · next h => exact absurd (by simp) h

/-- `pause_job` only flips the status flag: the ledger, raw rows and
both progress counters are untouched in every branch. -/
theorem pause_job_frame (job : String) (memStatus : Option String) (db2 : DB) :
    ledger (pause_job job memStatus db2).2 job = ledger db2 job
    ∧ (pause_job job memStatus db2).2.logs = db2.logs
    ∧ ((db2.jobs.lookup job).isSome →
        (jobsRow (pause_job job memStatus db2).2 job).files_processed
          = (jobsRow db2 job).files_processed
        ∧ (jobsRow (pause_job job memStatus db2).2 job).total_files
          = (jobsRow db2 job).total_files) := by
  cases memStatus with
  | none => exact ⟨rfl, rfl, fun _ => ⟨rfl, rfl⟩⟩
  | some st =>
    by_cases h : st ≠ "RUNNING"
    · have hpj : pause_job job (some st) db2 = (.httpError 400, db2) := by
        simp only [pause_job]
        rw [if_pos h]
      rw [hpj]
      exact ⟨rfl, rfl, fun _ => ⟨rfl, rfl⟩⟩
    · have hpj : pause_job job (some st) db2
          = (.ok, updateJobs db2 job (fun j => { j with status := "PAUSED" })) := by
        simp only [pause_job]
        rw [if_neg h]
      rw [hpj]
      refine ⟨rfl, rfl, fun hs => ?_⟩
      show (jobsRow (updateJobs db2 job _) job).files_processed = _
          ∧ (jobsRow (updateJobs db2 job _) job).total_files = _
      rw [jobsRow_updateJobs db2 job _ hs]
      exact ⟨rfl, rfl⟩

/-- C4: a pause request only sets the in-memory status flag (`pause_job`
touches neither counters, ledger nor rows), and the running loop honors
it only at a file boundary: whenever `process_job` exits paused, the
persisted status is `PAUSED`, the persisted `files_processed` equals
the number of ledger markers (the count of fully committed files), and
every enumerated file — including the one in flight when the pause was
requested — is either fully committed and in the ledger or entirely
absent from it, never partially reflected. -/
theorem pause_only_at_file_boundary (vl : List String) (job : String)
    (env : LocalEnv) (pausedAt : Nat → Bool) (db : DB)
    (memStatus : Option String) (db2 : DB)
    (hdir : env.isDir = true) (hne : env.files ≠ [])
    (hlogs : db.logs = []) (hledger : ledger db job = [])
    (hjob : (db.jobs.lookup job).isSome)
    (hpairs : (env.files.map (fun f => (dirname f.1, basename f.1))).Nodup) :
    ((process_job vl job env pausedAt db).outcome = .paused →
      (jobsRow (process_job vl job env pausedAt db).db job).status = "PAUSED"
      ∧ (jobsRow (process_job vl job env pausedAt db).db job).files_processed
          = (ledger (process_job vl job env pausedAt db).db job).length
      ∧ ∀ f ∈ env.files,
          fileFullOrAbsent vl (process_job vl job env pausedAt db).db job f)
    ∧ ledger (pause_job job memStatus db2).2 job = ledger db2 job
    ∧ (pause_job job memStatus db2).2.logs = db2.logs
    ∧ ((db2.jobs.lookup job).isSome →
        (jobsRow (pause_job job memStatus db2).2 job).files_processed
          = (jobsRow db2 job).files_processed
        ∧ (jobsRow (pause_job job memStatus db2).2 job).total_files
          = (jobsRow db2 job).total_files) := by
  have hrun := process_job_run vl job env pausedAt db hdir hne
  have hded : (ledger db job).dedup = [] := by rw [hledger]; rfl
  rw [hded] at hrun
  have spec := processFiles_spec vl job pausedAt env.files 0
    (updateJobs db job (fun j =>
      { j with status := "RUNNING", total_files := env.files.length,
               files_processed := (ledger db job).dedup.length }))
    { (jobsRow db job) with
      status := "RUNNING"
      files_processed := (ledger db job).dedup.length
      total_files := env.files.length }
    hpairs
    (by
      show (ledger db job).dedup.length = _
      rw [updateJobs_ledger, hledger]
      rfl)
    (by
      intro f _
      constructor
      · rw [updateJobs_ledger, hledger]
        exact List.not_mem_nil f.1
      · show (updateJobs db job _).logs.filter _ = []
        rw [updateJobs_logs, hlogs]
        rfl)
    (by rw [isSome_lookup_updateJobs]; exact hjob)
  rw [hded] at spec
  refine ⟨?_, (pause_job_frame job memStatus db2).1,
    (pause_job_frame job memStatus db2).2.1,
    (pause_job_frame job memStatus db2).2.2⟩
  intro hout
  rw [hrun] at hout ⊢
  exact ⟨spec.pausedStatus hout, spec.count, spec.files⟩

/-- Witness for C4: a two-file job paused at the second file boundary
commits the first file whole and leaves the second untouched. -/
theorem pause_only_at_file_boundary_witness :
    (jobsRow (process_job ["INFO"] "j1"
        ⟨"/d", true, [("d/a.gz", .ok [some ⟨none, some "INFO", some "s.C", none⟩]),
                      ("d/b.gz", .ok [some ⟨none, some "INFO", some "s.C", none⟩])]⟩
        (fun i => decide (1 ≤ i))
        ⟨[], Summaries.empty, [], [("j1", ⟨"/d", "RUNNING", 0, 0⟩)]⟩).db "j1").status
      = "PAUSED"
    ∧ (jobsRow (process_job ["INFO"] "j1"
        ⟨"/d", true, [("d/a.gz", .ok [some ⟨none, some "INFO", some "s.C", none⟩]),
                      ("d/b.gz", .ok [some ⟨none, some "INFO", some "s.C", none⟩])]⟩
        (fun i => decide (1 ≤ i))
        ⟨[], Summaries.empty, [], [("j1", ⟨"/d", "RUNNING", 0, 0⟩)]⟩).db "j1").files_processed
      = (ledger (process_job ["INFO"] "j1"
        ⟨"/d", true, [("d/a.gz", .ok [some ⟨none, some "INFO", some "s.C", none⟩]),
                      ("d/b.gz", .ok [some ⟨none, some "INFO", some "s.C", none⟩])]⟩
        (fun i => decide (1 ≤ i))
        ⟨[], Summaries.empty, [], [("j1", ⟨"/d", "RUNNING", 0, 0⟩)]⟩).db "j1").length
    ∧ fileFullOrAbsent ["INFO"] (process_job ["INFO"] "j1"
        ⟨"/d", true, [("d/a.gz", .ok [some ⟨none, some "INFO", some "s.C", none⟩]),
                      ("d/b.gz", .ok [some ⟨none, some "INFO", some "s.C", none⟩])]⟩
        (fun i => decide (1 ≤ i))
        ⟨[], Summaries.empty, [], [("j1", ⟨"/d", "RUNNING", 0, 0⟩)]⟩).db "j1"
        ("d/b.gz", .ok [some ⟨none, some "INFO", some "s.C", none⟩]) := by
  have h := pause_only_at_file_boundary ["INFO"] "j1"
    ⟨"/d", true, [("d/a.gz", .ok [some ⟨none, some "INFO", some "s.C", none⟩]),
                  ("d/b.gz", .ok [some ⟨none, some "INFO", some "s.C", none⟩])]⟩
    (fun i => decide (1 ≤ i))
    ⟨[], Summaries.empty, [], [("j1", ⟨"/d", "RUNNING", 0, 0⟩)]⟩
    (some "RUNNING") DB.empty
    rfl (by simp) rfl rfl rfl (by decide)
  obtain ⟨h1, h2, h3⟩ := h.1 (by decide)
  exact ⟨h1, h2, h3 _ (List.mem_cons_of_mem _ (List.mem_cons_self _ _))⟩

/-- C5 counterexample: a job whose last durable counters are
`files_processed = 5`, `total_files = 10` transitions to `ERROR` via
the invalid-source-root branch, which resets both counters to 0 instead
of keeping the last durable values. -/
theorem error_reset_counterexample :
    (jobsRow (⟨[], Summaries.empty, [],
        [("jobX", ⟨"/gone", "PAUSED", 5, 10⟩)]⟩ : DB) "jobX").files_processed = 5
    ∧ (jobsRow (⟨[], Summaries.empty, [],
        [("jobX", ⟨"/gone", "PAUSED", 5, 10⟩)]⟩ : DB) "jobX").total_files = 10
    ∧ (process_job ["INFO"] "jobX" ⟨"/gone", false, []⟩ (fun _ => false)
        ⟨[], Summaries.empty, [], [("jobX", ⟨"/gone", "PAUSED", 5, 10⟩)]⟩).outcome
      = .invalidSource
    ∧ (jobsRow (process_job ["INFO"] "jobX" ⟨"/gone", false, []⟩ (fun _ => false)
        ⟨[], Summaries.empty, [], [("jobX", ⟨"/gone", "PAUSED", 5, 10⟩)]⟩).db
        "jobX").status = "ERROR"
    ∧ (jobsRow (process_job ["INFO"] "jobX" ⟨"/gone", false, []⟩ (fun _ => false)
        ⟨[], Summaries.empty, [], [("jobX", ⟨"/gone", "PAUSED", 5, 10⟩)]⟩).db
        "jobX").files_processed = 0
    ∧ (jobsRow (process_job ["INFO"] "jobX" ⟨"/gone", false, []⟩ (fun _ => false)
        ⟨[], Summaries.empty, [], [("jobX", ⟨"/gone", "PAUSED", 5, 10⟩)]⟩).db
        "jobX").total_files = 0 := by
  decide

/-- C5 amended: on a transition to `ERROR` caused by a failure while
processing files (the generic handler), `files_processed` and
`total_files` keep their last durable values — the ledger count and the
enumerated total; but the invalid-source-root transition instead
resets both counters to 0 (and sets `ERROR`), it does not keep them. -/
theorem error_freezes_or_resets_counters (vl : List String) (job : String)
    (env : LocalEnv) (pausedAt : Nat → Bool) (db : DB)
    (env2 : LocalEnv) (db2 : DB)
    (hdir : env.isDir = true) (hne : env.files ≠ [])
    (hlogs : db.logs = []) (hledger : ledger db job = [])
    (hjob : (db.jobs.lookup job).isSome)
    (hpairs : (env.files.map (fun f => (dirname f.1, basename f.1))).Nodup)
    (hdir2 : env2.isDir = false) (hjob2 : (db2.jobs.lookup job).isSome) :
    ((process_job vl job env pausedAt db).outcome = .errored →
      (jobsRow (process_job vl job env pausedAt db).db job).status = "ERROR"
      ∧ (jobsRow (process_job vl job env pausedAt db).db job).files_processed
          = (ledger (process_job vl job env pausedAt db).db job).length
      ∧ (jobsRow (process_job vl job env pausedAt db).db job).total_files
          = env.files.length)
    ∧ ((jobsRow (process_job vl job env2 pausedAt db2).db job).status = "ERROR"
      ∧ (jobsRow (process_job vl job env2 pausedAt db2).db job).files_processed = 0
      ∧ (jobsRow (process_job vl job env2 pausedAt db2).db job).total_files = 0) := by
  have hrun := process_job_run vl job env pausedAt db hdir hne
  have hded : (ledger db job).dedup = [] := by rw [hledger]; rfl
  rw [hded] at hrun
  have spec := processFiles_spec vl job pausedAt env.files 0
    (updateJobs db job (fun j =>
      { j with status := "RUNNING", total_files := env.files.length,
               files_processed := (ledger db job).dedup.length }))
    { (jobsRow db job) with
      status := "RUNNING"
      files_processed := (ledger db job).dedup.length
      total_files := env.files.length }
    hpairs
    (by
      show (ledger db job).dedup.length = _
      rw [updateJobs_ledger, hledger]
      rfl)
    (by
      intro f _
      constructor
      · rw [updateJobs_ledger, hledger]
        exact List.not_mem_nil f.1
      · show (updateJobs db job _).logs.filter _ = []
        rw [updateJobs_logs, hlogs]
        rfl)
    (by rw [isSome_lookup_updateJobs]; exact hjob)
  rw [hded] at spec
  constructor
  · intro hout
    rw [hrun] at hout ⊢
    exact ⟨(spec.erroredStatus hout).1, spec.count, (spec.erroredStatus hout).2⟩
  · rw [(process_job_invalid vl job env2 pausedAt db2 hdir2).1,
      jobsRow_updateJobs db2 job _ hjob2]
    exact ⟨rfl, rfl, rfl⟩

/-- Witness for the amended C5: a job whose only file fails to read
ends in `ERROR` with the counters frozen at their durable values. -/
theorem error_freezes_or_resets_counters_witness :
    (jobsRow (process_job ["INFO"] "j1" ⟨"/d", true, [("d/a.gz", .error ())]⟩
        (fun _ => false)
        ⟨[], Summaries.empty, [], [("j1", ⟨"/d", "RUNNING", 0, 0⟩)]⟩).db "j1").status
      = "ERROR"
    ∧ (jobsRow (process_job ["INFO"] "j1" ⟨"/d", true, [("d/a.gz", .error ())]⟩
        (fun _ => false)
        ⟨[], Summaries.empty, [], [("j1", ⟨"/d", "RUNNING", 0, 0⟩)]⟩).db
        "j1").files_processed
      = (ledger (process_job ["INFO"] "j1" ⟨"/d", true, [("d/a.gz", .error ())]⟩
          (fun _ => false)
          ⟨[], Summaries.empty, [], [("j1", ⟨"/d", "RUNNING", 0, 0⟩)]⟩).db "j1").length
    ∧ (jobsRow (process_job ["INFO"] "j1" ⟨"/d", true, [("d/a.gz", .error ())]⟩
        (fun _ => false)
        ⟨[], Summaries.empty, [], [("j1", ⟨"/d", "RUNNING", 0, 0⟩)]⟩).db
        "j1").total_files = 1 := by
  have h := error_freezes_or_resets_counters ["INFO"] "j1"
    ⟨"/d", true, [("d/a.gz", .error ())]⟩ (fun _ => false)
    ⟨[], Summaries.empty, [], [("j1", ⟨"/d", "RUNNING", 0, 0⟩)]⟩
    ⟨"/gone", false, []⟩ ⟨[], Summaries.empty, [], [("j1", ⟨"/gone", "PAUSED", 5, 10⟩)]⟩
    rfl (by simp) rfl rfl rfl (by decide) rfl rfl
  exact h.1 (by decide)

/-! ## The round-trip invariant through the job loop -/

theorem parseTimestamp_empty : parseTimestamp "" = none := rfl

theorem process_log_file_levels (vl : List String) (hvl : "" ∉ vl)
    (job p : String) (lines : List Line) (db : DB)
    (h : ∀ r ∈ db.logs, r.level ≠ "") :
    ∀ r ∈ (process_log_file vl job p lines db).db.logs, r.level ≠ "" := by
  rw [process_log_file_logs]
  intro r hr
  rcases List.mem_append.mp hr with h1 | h1
  · exact h r h1
  · exact fileRows_level_ne vl hvl _ _ _ lines 0 r h1

theorem processFiles_sums (vl : List String) (hvl : "" ∉ vl) (job : String)
    (pausedAt : Nat → Bool) (processed : List String)
    (rem : List (String × Except Unit (List Line))) (idx : Nat) (db : DB)
    (mem : JobsRow) (hS : SumsOk db) (hL : ∀ r ∈ db.logs, r.level ≠ "") :
    SumsOk (processFiles vl job pausedAt processed rem idx db mem).db
    ∧ ∀ r ∈ (processFiles vl job pausedAt processed rem idx db mem).db.logs,
        r.level ≠ "" := by
  induction rem generalizing idx db mem with
  | nil => exact ⟨⟨hS.cl, hS.sl, hS.tl, hS.cs⟩, hL⟩
  | cons hd rest ih =>
    obtain ⟨p, content⟩ := hd
    simp only [processFiles]
    split
    · exact ih (idx + 1) db mem hS hL
    · split
      · exact ⟨⟨hS.cl, hS.sl, hS.tl, hS.cs⟩, hL⟩
      · rcases content with _ | lines
        · exact ⟨⟨hS.cl, hS.sl, hS.tl, hS.cs⟩, hL⟩
        · have hS' := process_log_file_sumsOk vl job p lines db hS
          have hL' := process_log_file_levels vl hvl job p lines db hL
          exact ih (idx + 1) _ _ ⟨hS'.cl, hS'.sl, hS'.tl, hS'.cs⟩ hL'

/-- C1 counterexample: a completed one-file job whose only record has
class field `"svcA."` (empty class after the split) has one `logs` row
but `sum(class_level_counts.count) = 0` — the round-trip equality fails
on the code as stated. -/
theorem round_trip_counterexample :
    (process_job ["ERROR", "WARN", "INFO", "DEBUG"] "j1"
        ⟨"/d", true, [("d/a.gz",
          .ok [some ⟨some "2024-01-01 10:00:00", some "INFO", some "svcA.", some "m"⟩])]⟩
        (fun _ => false)
        ⟨[], Summaries.empty, [], [("j1", ⟨"/d", "RUNNING", 0, 0⟩)]⟩).outcome
      = .completed
    ∧ (process_job ["ERROR", "WARN", "INFO", "DEBUG"] "j1"
        ⟨"/d", true, [("d/a.gz",
          .ok [some ⟨some "2024-01-01 10:00:00", some "INFO", some "svcA.", some "m"⟩])]⟩
        (fun _ => false)
        ⟨[], Summaries.empty, [], [("j1", ⟨"/d", "RUNNING", 0, 0⟩)]⟩).db.logs.length = 1
    ∧ totalCount (process_job ["ERROR", "WARN", "INFO", "DEBUG"] "j1"
        ⟨"/d", true, [("d/a.gz",
          .ok [some ⟨some "2024-01-01 10:00:00", some "INFO", some "svcA.", some "m"⟩])]⟩
        (fun _ => false)
        ⟨[], Summaries.empty, [], [("j1", ⟨"/d", "RUNNING", 0, 0⟩)]⟩).db.sums.class_level_counts
      = 0 := by
  decide

/-- C1 amended: for every job run to completion from a fresh store (and
a level configuration not containing the empty string),
`sum(class_level_counts.count)` equals the number of `logs` rows with a
non-empty class (rows whose class came out empty are omitted);
similarly the service×level sum counts rows with non-empty service and
the class×service sum rows with both non-empty; the timeline sum equals
the number of `logs` rows whose timestamp parses under one of the three
accepted formats, exactly as originally claimed. -/
theorem round_trip_amended (vl : List String) (job : String) (env : LocalEnv)
    (pausedAt : Nat → Bool) (db : DB)
    (hvl : "" ∉ vl) (hlogs : db.logs = []) (hsums : db.sums = Summaries.empty)
    (hcomp : (process_job vl job env pausedAt db).outcome = .completed) :
    totalCount (process_job vl job env pausedAt db).db.sums.class_level_counts
        = (process_job vl job env pausedAt db).db.logs.countP
            (fun row => decide (row.cls ≠ ""))
    ∧ totalCount (process_job vl job env pausedAt db).db.sums.service_level_counts
        = (process_job vl job env pausedAt db).db.logs.countP
            (fun row => decide (row.service ≠ ""))
    ∧ totalCount (process_job vl job env pausedAt db).db.sums.class_service_counts
        = (process_job vl job env pausedAt db).db.logs.countP
            (fun row => decide (row.cls ≠ "" ∧ row.service ≠ ""))
    ∧ totalCount (process_job vl job env pausedAt db).db.sums.timeline_counts
        = (process_job vl job env pausedAt db).db.logs.countP
            (fun row => (parseTimestamp row.timestamp).isSome) := by
  have hS : SumsOk db := by
    constructor <;> rw [hlogs, hsums] <;> rfl
  have hL : ∀ r ∈ db.logs, r.level ≠ "" := by
    rw [hlogs]; intro r hr; exact absurd hr (List.not_mem_nil r)
  have key : SumsOk (process_job vl job env pausedAt db).db
      ∧ ∀ r ∈ (process_job vl job env pausedAt db).db.logs, r.level ≠ "" := by
    simp only [process_job]
    split
    · exact ⟨⟨hS.cl, hS.sl, hS.tl, hS.cs⟩, hL⟩
    · split
      · exact ⟨⟨hS.cl, hS.sl, hS.tl, hS.cs⟩, hL⟩
      · exact processFiles_sums vl hvl job pausedAt _ env.files 0 _ _
          ⟨hS.cl, hS.sl, hS.tl, hS.cs⟩ hL
  obtain ⟨hSr, hLr⟩ := key
  refine ⟨?_, ?_, ?_, ?_⟩
  · rw [hSr.cl]
    apply List.countP_congr
    intro r hr
    simp [rCL, hLr r hr]
  · rw [hSr.sl]
    apply List.countP_congr
    intro r hr
    simp [rSL, hLr r hr]
  · rw [hSr.cs]
    apply List.countP_congr
    intro r hr
    simp [rCS, hLr r hr]
  · rw [hSr.tl]
    apply List.countP_congr
    intro r hr
    by_cases hts : r.timestamp = ""
    · simp [rTL, hts, parseTimestamp_empty]
    · simp [rTL, hts, hLr r hr]

/-- Witness for the amended C1 on a concrete two-line completed job
(one record with a parseable timestamp, one with an empty class and an
unparseable timestamp). -/
theorem round_trip_amended_witness :
    totalCount (process_job ["ERROR", "WARN", "INFO", "DEBUG"] "j1"
        ⟨"/d", true, [("d/a.gz",
          .ok [some ⟨some "2024-01-01 10:00:00", some "ERROR", some "svcA.ClassX", some "boom"⟩,
               some ⟨some "bad stamp", some "INFO", some "svcA.", some "m"⟩])]⟩
        (fun _ => false)
        ⟨[], Summaries.empty, [], [("j1", ⟨"/d", "RUNNING", 0, 0⟩)]⟩).db.sums.class_level_counts
      = (process_job ["ERROR", "WARN", "INFO", "DEBUG"] "j1"
        ⟨"/d", true, [("d/a.gz",
          .ok [some ⟨some "2024-01-01 10:00:00", some "ERROR", some "svcA.ClassX", some "boom"⟩,
               some ⟨some "bad stamp", some "INFO", some "svcA.", some "m"⟩])]⟩
        (fun _ => false)
        ⟨[], Summaries.empty, [], [("j1", ⟨"/d", "RUNNING", 0, 0⟩)]⟩).db.logs.countP
          (fun row => decide (row.cls ≠ "")) := by
  have h := round_trip_amended ["ERROR", "WARN", "INFO", "DEBUG"] "j1"
    ⟨"/d", true, [("d/a.gz",
      .ok [some ⟨some "2024-01-01 10:00:00", some "ERROR", some "svcA.ClassX", some "boom"⟩,
           some ⟨some "bad stamp", some "INFO", some "svcA.", some "m"⟩])]⟩
    (fun _ => false)
    ⟨[], Summaries.empty, [], [("j1", ⟨"/d", "RUNNING", 0, 0⟩)]⟩
    (by decide) rfl rfl (by decide)
  exact h.1

/-! ## Marker ordering within a file's commit trace -/

/-- C3: within `process_log_file`'s commit sequence, the
`processed_file` marker is committed strictly last: any durable
snapshot in which the file's marker exists is the final database state,
in which every batch of the file's raw rows (and, with it, every
summary delta and metadata write) has already committed; the marker
snapshot is the last element of the commit trace, and the final state
holds exactly the file's full row contribution. -/
theorem marker_strictly_after_batches (vl : List String) (job p : String)
    (lines : List Line) (db : DB) (hmk : p ∉ ledger db job) :
    (∀ d ∈ (process_log_file vl job p lines db).trace,
      p ∈ ledger d job → d = (process_log_file vl job p lines db).db)
    ∧ (process_log_file vl job p lines db).trace.getLast?
        = some (process_log_file vl job p lines db).db
    ∧ (process_log_file vl job p lines db).db.logs
        = db.logs ++ fileRows vl job (dirname p) (basename p) lines 0 := by
  have hled := processLines_ledger vl job (dirname p) (basename p) lines 0 db
    FileAcc.init job
  refine ⟨?_, ?_, process_log_file_logs vl job p lines db⟩
  · intro d hd hpd
    revert hd
    simp only [process_log_file]
    split
    · intro hd
      rcases List.mem_append.mp hd with hd | hd
      · exfalso
        rcases List.mem_append.mp hd with hd | hd
        · exact hmk ((hled.2 d hd) ▸ hpd)
        · rcases List.mem_cons.mp hd with rfl | hd
          · exact hmk (((flushBatch_ledger job _ _ job).1.trans hled.1) ▸ hpd)
          · rcases List.mem_cons.mp hd with rfl | hd
            · exact hmk (((flushBatch_ledger job _ _ job).2.trans hled.1) ▸ hpd)
            · exact absurd hd (List.not_mem_nil d)
      · rcases List.mem_cons.mp hd with rfl | hd
        · rfl
        · exact absurd hd (List.not_mem_nil d)
    · intro hd
      rcases List.mem_append.mp hd with hd | hd
      · exact absurd ((hled.2 d hd) ▸ hpd) hmk
      · rcases List.mem_cons.mp hd with rfl | hd
        · rfl
        · exact absurd hd (List.not_mem_nil d)
  · simp only [process_log_file]
    split
    · rw [List.getLast?_concat]
    · rw [List.getLast?_concat]

/-- Witness for C3 on a concrete one-line file over an empty store. -/
theorem marker_strictly_after_batches_witness :
    (process_log_file ["INFO"] "j1" "d/a.gz"
        [some ⟨none, some "INFO", some "s.C", none⟩] DB.empty).trace.getLast?
      = some (process_log_file ["INFO"] "j1" "d/a.gz"
          [some ⟨none, some "INFO", some "s.C", none⟩] DB.empty).db :=
  (marker_strictly_after_batches ["INFO"] "j1" "d/a.gz"
    [some ⟨none, some "INFO", some "s.C", none⟩] DB.empty (by decide)).2.1

/-! ## Crash between a batch commit and the file marker, then re-run -/

theorem fileRows_replicate_length (vl : List String) (j fo fn : String)
    (e : LogEntry) (n idx : Nat) :
    (fileRows vl j fo fn (List.replicate n (some e)) idx).length = n := by
  induction n generalizing idx with
  | zero => rfl
  | succ n ih => simp [List.replicate, fileRows, ih]

theorem fileRows_replicate_countP (vl : List String) (j fo fn : String)
    (e : LogEntry) (n idx : Nat) (p : RawRow → Bool)
    (hp : ∀ i, p (mkRow vl j fo fn i e) = true) :
    (fileRows vl j fo fn (List.replicate n (some e)) idx).countP p = n := by
  induction n generalizing idx with
  | zero => rfl
  | succ n ih =>
    simp [List.replicate, fileRows, List.countP_cons, ih, hp idx]

/-- Running a one-file local job whose file reads cleanly, from a store
with an empty ledger for the job and no pause at the first boundary: it
completes, appends exactly the file's rows to `logs`, and (from a
round-trip-consistent store) the class×level total is the qualifying
row count of the store plus that of the file. -/
theorem process_job_single_file (vl : List String) (job p fp : String)
    (lines : List Line) (pausedAt : Nat → Bool) (db : DB)
    (hvl : "" ∉ vl)
    (hled : ledger db job = [])
    (hnp : pausedAt 0 = false)
    (hS : SumsOk db) (hL : ∀ r ∈ db.logs, r.level ≠ "") :
    (process_job vl job ⟨fp, true, [(p, .ok lines)]⟩ pausedAt db).outcome = .completed
    ∧ (process_job vl job ⟨fp, true, [(p, .ok lines)]⟩ pausedAt db).db.logs
        = db.logs ++ fileRows vl job (dirname p) (basename p) lines 0
    ∧ totalCount (process_job vl job ⟨fp, true, [(p, .ok lines)]⟩
          pausedAt db).db.sums.class_level_counts
        = db.logs.countP rCL
          + (fileRows vl job (dirname p) (basename p) lines 0).countP rCL := by
  have hrun := process_job_run vl job ⟨fp, true, [(p, .ok lines)]⟩ pausedAt db
    rfl (by simp)
  have hded : (ledger db job).dedup = [] := by rw [hled]; rfl
  rw [hded] at hrun
  have hstep : ∀ (dbX : DB) (memX : JobsRow),
      processFiles vl job pausedAt [] [(p, .ok lines)] 0 dbX memX
        = ⟨updateJobs (updateJobs (process_log_file vl job p lines dbX).db job
              (fun j => { j with files_processed := memX.files_processed + 1 })) job
            (fun j =>
              { j with status := "COMPLETED"
                       files_processed := memX.files_processed + 1
                       total_files := memX.total_files }),
           { memX with files_processed := memX.files_processed + 1,
                       status := "COMPLETED" }, .completed⟩ := by
    intro dbX memX
    simp only [processFiles]
    rw [if_neg (List.not_mem_nil p), if_neg (by rw [hnp]; simp)]
  have hlogs : (process_job vl job ⟨fp, true, [(p, .ok lines)]⟩ pausedAt db).db.logs
      = db.logs ++ fileRows vl job (dirname p) (basename p) lines 0 := by
    rw [hrun, hstep]
    simp only [updateJobs_logs, process_log_file_logs]
  have hfs : SumsOk (process_job vl job ⟨fp, true, [(p, .ok lines)]⟩ pausedAt db).db := by
    rw [hrun]
    refine (processFiles_sums vl hvl job pausedAt [] [(p, .ok lines)] 0 _ _ ?_ ?_).1
    · exact ⟨hS.cl, hS.sl, hS.tl, hS.cs⟩
    · exact fun r hr => hL r hr
  refine ⟨?_, hlogs, ?_⟩
  · rw [hrun, hstep]
  · rw [hfs.cl, hlogs, List.countP_append]

theorem getD_mem (l : List DB) (n : Nat) (d : DB) (h : n < l.length) :
    l.getD n d ∈ l := by
  induction l generalizing n with
  | nil => simp at h
  | cons a t ih =>
    cases n with
    | zero => exact List.mem_cons_self _ _
    | succ m => exact List.mem_cons_of_mem _ (ih m (by simpa using h))

/-- Every durable snapshot of a file's commit trace either leaves the
ledger untouched or is the final state. -/
theorem process_log_file_trace_cases (vl : List String) (job p : String)
    (lines : List Line) (db : DB) :
    ∀ d ∈ (process_log_file vl job p lines db).trace,
      (∀ j2, ledger d j2 = ledger db j2)
      ∨ d = (process_log_file vl job p lines db).db := by
  have hled := fun j2 => processLines_ledger vl job (dirname p) (basename p)
    lines 0 db FileAcc.init j2
  intro d hd
  revert hd
  simp only [process_log_file]
  split
  · intro hd
    rcases List.mem_append.mp hd with hd | hd
    · rcases List.mem_append.mp hd with hd | hd
      · exact Or.inl (fun j2 => (hled j2).2 d hd)
      · rcases List.mem_cons.mp hd with rfl | hd
        · exact Or.inl (fun j2 => ((flushBatch_ledger job _ _ j2).1).trans ((hled j2).1))
        · rcases List.mem_cons.mp hd with rfl | hd
          · exact Or.inl (fun j2 => ((flushBatch_ledger job _ _ j2).2).trans ((hled j2).1))
          · exact absurd hd (List.not_mem_nil d)
    · rcases List.mem_cons.mp hd with rfl | hd
      · right; rfl
      · exact absurd hd (List.not_mem_nil d)
  · intro hd
    rcases List.mem_append.mp hd with hd | hd
    · exact Or.inl (fun j2 => (hled j2).2 d hd)
    · rcases List.mem_cons.mp hd with rfl | hd
      · right; rfl
      · exact absurd hd (List.not_mem_nil d)

/-- The concrete failing input for the resume-after-crash property: a
job over one file of 501 identical JSON lines. -/
def c2vl : List String := ["ERROR", "WARN", "INFO", "DEBUG"]

def c2entry : LogEntry := ⟨none, some "INFO", some "a.b", none⟩

def c2line : Line := some c2entry

def c2lines : List Line := List.replicate 501 c2line

def c2db0 : DB := ⟨[], Summaries.empty, [], [("j1", ⟨"/tmp/logs", "RUNNING", 0, 0⟩)]⟩

def c2env : LocalEnv := ⟨"/tmp/logs", true, [("/tmp/logs/big.gz", .ok c2lines)]⟩

/-- The durable store right before the file loop starts the big file
(the `RUNNING` jobs-row update has committed). -/
def c2setup : DB := updateJobs c2db0 "j1" (fun j =>
  { j with status := "RUNNING", total_files := 1, files_processed := 0 })

/-- The durable store left by a crash after the first batch's two
commits (500 raw rows and their summary deltas durable, metadata
written, no `processed_file` marker yet): snapshot index 1 of the
file's commit trace. -/
def c2crashed : DB :=
  (process_log_file c2vl "j1" "/tmp/logs/big.gz" c2lines c2setup).trace.getD 1 DB.empty

set_option maxHeartbeats 4000000 in
theorem c2crashed_facts :
    c2crashed.logs.length = 500
    ∧ totalCount c2crashed.sums.class_level_counts = c2crashed.logs.countP rCL
    ∧ totalCount c2crashed.sums.service_level_counts = c2crashed.logs.countP rSL
    ∧ totalCount c2crashed.sums.timeline_counts = c2crashed.logs.countP rTL
    ∧ totalCount c2crashed.sums.class_service_counts = c2crashed.logs.countP rCS
    ∧ c2crashed.logs.countP rCL = 500
    ∧ ∀ r ∈ c2crashed.logs, r.level ≠ "" := by
  decide

theorem c2lines_eq : c2lines = List.replicate 501 (some c2entry) := rfl

set_option maxHeartbeats 4000000 in
/-- The crash snapshot carries no `processed_file` marker: it is a
non-final element of the commit trace (its 500 rows differ from the
final state's 501), and non-final snapshots leave the ledger
untouched. -/
theorem c2crashed_ledger : ledger c2crashed "j1" = [] := by
  have hlen : (process_log_file c2vl "j1" "/tmp/logs/big.gz" c2lines
      c2setup).trace.length = 5 := by decide
  have hmem : c2crashed ∈ (process_log_file c2vl "j1" "/tmp/logs/big.gz" c2lines
      c2setup).trace :=
    getD_mem _ 1 DB.empty (by rw [hlen]; omega)
  rcases process_log_file_trace_cases c2vl "j1" "/tmp/logs/big.gz" c2lines
    c2setup c2crashed hmem with h | h
  · exact h "j1"
  · exfalso
    have h500 := c2crashed_facts.1
    rw [h] at h500
    rw [process_log_file_logs, c2lines_eq] at h500
    rw [List.length_append,
      fileRows_replicate_length c2vl "j1" _ _ c2entry 501 0] at h500
    simp at h500

theorem rCL_mkRow (vl : List String) (j fo fn : String) (i : Nat) (e : LogEntry) :
    rCL (mkRow vl j fo fn i e)
      = decide ((extractClassService e).1 ≠ "" ∧ extractLevel vl e ≠ "") := rfl

theorem c2row_keeps : ∀ i, rCL (mkRow c2vl "j1" (dirname "/tmp/logs/big.gz")
    (basename "/tmp/logs/big.gz") i c2entry) = true := by
  intro i
  rw [rCL_mkRow]
  decide

/-- C2: evaluating the code on the failing input.  One file of 501
identical JSON lines (batch size 500): an uninterrupted run ends
`COMPLETED` with 501 raw rows and a class×level sum of 501.  Killing
the process after the first batch's commits (durable snapshot index 1
of the file's commit trace: 500 rows, summaries updated, no marker) and
re-running the job to completion re-processes the unmarked file from
scratch without deleting the partial contribution: the final state has
1001 raw rows and a class×level sum of 1001 — not the 501 of the
uninterrupted run, so re-processing a partially-committed unmarked file
duplicates, rather than erases, the earlier partial attempt. -/
theorem crash_rerun_duplicates :
    (process_job c2vl "j1" c2env (fun _ => false) c2db0).outcome = .completed
    ∧ (process_job c2vl "j1" c2env (fun _ => false) c2db0).db.logs.length = 501
    ∧ totalCount (process_job c2vl "j1" c2env
        (fun _ => false) c2db0).db.sums.class_level_counts = 501
    ∧ ledger c2crashed "j1" = []
    ∧ c2crashed.logs.length = 500
    ∧ (process_job c2vl "j1" c2env (fun _ => false) c2crashed).outcome = .completed
    ∧ (process_job c2vl "j1" c2env (fun _ => false) c2crashed).db.logs.length = 1001
    ∧ totalCount (process_job c2vl "j1" c2env
        (fun _ => false) c2crashed).db.sums.class_level_counts = 1001 := by
  obtain ⟨f2, f3, f4, f5, f6, f7, f8⟩ := c2crashed_facts
  have f1 := c2crashed_ledger
  have h0 := process_job_single_file c2vl "j1" "/tmp/logs/big.gz" "/tmp/logs"
    c2lines (fun _ => false) c2db0 (by decide) rfl rfl
    ⟨rfl, rfl, rfl, rfl⟩ (fun r hr => absurd hr (List.not_mem_nil r))
  have h1 := process_job_single_file c2vl "j1" "/tmp/logs/big.gz" "/tmp/logs"
    c2lines (fun _ => false) c2crashed (by decide) f1 rfl
    ⟨f3, f4, f5, f6⟩ f8
  have hfr : (fileRows c2vl "j1" (dirname "/tmp/logs/big.gz")
      (basename "/tmp/logs/big.gz") c2lines 0).length = 501 := by
    rw [c2lines_eq]
    exact fileRows_replicate_length c2vl "j1" _ _ c2entry 501 0
  have hfc : (fileRows c2vl "j1" (dirname "/tmp/logs/big.gz")
      (basename "/tmp/logs/big.gz") c2lines 0).countP rCL = 501 := by
    rw [c2lines_eq]
    exact fileRows_replicate_countP c2vl "j1" _ _ c2entry 501 0 rCL c2row_keeps
  simp only [c2env]
  refine ⟨h0.1, ?_, ?_, f1, f2, h1.1, ?_, ?_⟩
  · rw [h0.2.1, List.length_append, hfr]
    rfl
  · rw [h0.2.2, hfc]
    rfl
  · rw [h1.2.1, List.length_append, hfr, f2]
  · rw [h1.2.2, hfc, f7]

end LogAnalyzer
